import Mathlib

/-!
Verification development for the LinkSaver repository (Express + Prisma backend,
React frontend).  The definitions below are a shallow embedding of the backend
route handlers in backend/src/routes/category.routes.ts and
backend/src/routes/link.routes.ts, of the Prisma/MySQL schema constraints
(prisma/migrations, foreign keys with ON DELETE SET NULL), and of the frontend
utility src/lib/videoUtils.ts.  Database rows are lists of records, Prisma
queries are list operations, and the express-validator chains are modelled by
boolean validators over a JSON-field type.
-/

namespace LinkSaver

/-! ## Data model (prisma schema: users / categories / links tables) -/

/-- Row of the categories table: id CHAR(36) PK, name, color (default
    #3b82f6), parent_id nullable FK to categories.id, user_id FK to users.id,
    created_at. -/
structure Category where
  id : String
  name : String
  color : String
  parentId : Option String
  userId : String
  createdAt : Nat
deriving DecidableEq

/-- Row of the links table: id CHAR(36) PK, title, url, description nullable,
    platform, category_id nullable FK to categories.id, user_id, created_at. -/
structure Link where
  id : String
  title : String
  url : String
  description : Option String
  platform : String
  categoryId : Option String
  userId : String
  createdAt : Nat
deriving DecidableEq

/-- The database state: the two tables the category/link routes touch. -/
structure Store where
  categories : List Category
  links : List Link
deriving DecidableEq

/-- The empty database. -/
def emptyStore : Store := ⟨[], []⟩

/-! ## Request-body fields and express-validator chains

A JSON body field is absent (undefined), null, or a string.  This mirrors what
the route handlers destructure from req.body. -/

inductive JField where
  | absent
  | null
  | str (s : String)
deriving DecidableEq

/-- JavaScript-style trim over the character list (String.prototype.trim);
    kernel-computable counterpart of the trim sanitizer. -/
def jsTrim (s : String) : String :=
  String.mk (((s.data.dropWhile Char.isWhitespace).reverse.dropWhile Char.isWhitespace).reverse)

/-- Characterwise lowercasing (String.prototype.toLowerCase for the ASCII
    range this code distinguishes). -/
def lowerStr (s : String) : String :=
  String.mk (s.data.map Char.toLower)

/-- Hexadecimal digit, as in the character classes of validator.js. -/
def isHexDigitChar (c : Char) : Bool :=
  c.isDigit || ('a' ≤ c && c ≤ 'f') || ('A' ≤ c && c ≤ 'F')

/-- Model of validator.js isUUID (version 'all'): 8-4-4-4-12 hex digits
    separated by hyphens. -/
def isUUID (s : String) : Bool :=
  let cs := s.data
  cs.length == 36 &&
  (List.range 36).all (fun i =>
    let c := cs.getD i ' '
    if i == 8 || i == 13 || i == 18 || i == 23 then c == '-' else isHexDigitChar c)

/-- Model of validator.js isHexColor: an optional leading '#' followed by
    3, 4, 6 or 8 hex digits. -/
def isHexColor (s : String) : Bool :=
  let cs := if s.data.headD ' ' == '#' then s.data.tail else s.data
  (cs.length == 3 || cs.length == 4 || cs.length == 6 || cs.length == 8) &&
  cs.all isHexDigitChar

/-- Chain body(f).optional().isUUID(): optional() skips only undefined, so a
    null value is passed to isUUID (after coercion to the empty string) and
    fails; a string value must be a UUID.  (express-validator documented
    default: options.values = 'undefined'.) -/
def validOptUUID : JField → Bool
  | .absent => true
  | .null => false
  | .str s => isUUID s

/-- Chain body(f).optional().notEmpty().trim(): notEmpty runs before the trim
    sanitizer, so it sees the raw value; null coerces to the empty string and
    fails notEmpty. -/
def validOptName : JField → Bool
  | .absent => true
  | .null => false
  | .str s => !(s == "")

/-- Chain body(f).notEmpty().trim() (required field). -/
def validReqName : JField → Bool
  | .str s => !(s == "")
  | _ => false

/-- Chain body(f).optional().isHexColor(). -/
def validOptHexColor : JField → Bool
  | .absent => true
  | .null => false
  | .str s => isHexColor s

/-! ## Prisma query helpers -/

/-- prisma findUnique({where: {id}}) on the categories table (no user filter;
    used by checkCircular). -/
def lookupCat (cats : List Category) (i : String) : Option Category :=
  cats.find? (fun c => c.id == i)

/-- prisma category.findFirst({where: {id, userId}}): the ownership-scoped
    lookup every category route starts with. -/
def findCategory (s : Store) (uid i : String) : Option Category :=
  s.categories.find? (fun c => c.id == i && c.userId == uid)

/-- prisma link.findFirst({where: {id, userId}}). -/
def findLink (s : Store) (uid i : String) : Option Link :=
  s.links.find? (fun l => l.id == i && l.userId == uid)

/-- One step along the parent chain: the parentId of the row found for i
    (none when the row is missing or its parent_id is null). -/
def parentStep (cats : List Category) (i : String) : Option String :=
  (lookupCat cats i).bind (fun c => c.parentId)

/-- Walking the parent chain from i reaches a null parent (or a missing row)
    within n steps. -/
def chainTerm (cats : List Category) : String → Nat → Bool
  | _, 0 => false
  | i, n + 1 =>
    match parentStep cats i with
    | none => true
    | some p => chainTerm cats p n

/-- Walking the parent chain from i encounters t within n steps (looking at
    the successive parents of i, not at i itself). -/
def chainHits (cats : List Category) (t : String) : String → Nat → Bool
  | _, 0 => false
  | i, n + 1 =>
    match parentStep cats i with
    | none => false
    | some p => p == t || chainHits cats t p n

/-- The recursive helper checkCircular of PUT /categories/:id, translated with
    explicit fuel: the source recursion

      const checkCircular = async (categoryId, targetId) => {
        const category = await prisma.category.findUnique({where: {id: categoryId},
                                                           select: {parentId: true}});
        if (!category || !category.parentId) return false;
        if (category.parentId === targetId) return true;
        return checkCircular(category.parentId, targetId);
      };

    has no decreasing measure of its own, so the embedding returns none when
    the recursion would still be running after the given number of unfoldings
    (modelling non-termination for every fuel). -/
def checkCircular (cats : List Category) : String → String → Nat → Option Bool
  | _, _, 0 => none
  | categoryId, targetId, fuel + 1 =>
    match parentStep cats categoryId with
    | none => some false
    | some p => if p == targetId then some true else checkCircular cats p targetId fuel

/-- Every parent chain in the table terminates in a null parent. -/
def Acyclic (cats : List Category) : Prop :=
  ∀ c ∈ cats, ∃ n, chainTerm cats c.id n = true

/-- Primary-key uniqueness of categories.id. -/
def NodupCatIds (cats : List Category) : Prop :=
  (cats.map (fun c => c.id)).Nodup

/-- Foreign-key integrity of categories.parent_id (REFERENCES categories(id)). -/
def RefInt (cats : List Category) : Prop :=
  ∀ c ∈ cats, ∀ p, c.parentId = some p → ∃ d ∈ cats, d.id = p

/-- The schema-level well-formedness of the categories table: primary-key
    uniqueness, parent foreign-key integrity, and terminating parent chains. -/
def StoreInv (s : Store) : Prop :=
  NodupCatIds s.categories ∧ RefInt s.categories ∧ Acyclic s.categories

/-! ## Category routes (backend/src/routes/category.routes.ts) -/

inductive CatGetRes where
  | notFound
  | ok (c : Category)
deriving DecidableEq

/-- GET /categories/:id. -/
def getCategory (s : Store) (uid i : String) : CatGetRes :=
  match findCategory s uid i with
  | none => .notFound
  | some c => .ok c

inductive CatCreateRes where
  | validationError
  | notFound
  | idTaken
  | ok (s : Store) (c : Category)
deriving DecidableEq

/-- POST /categories.  Validators: name notEmpty trim, color optional
    isHexColor, parentId optional isUUID.  If parentId is given the parent
    must exist and belong to the caller, else 404.  The row is inserted with
    color defaulting to #3b82f6 and parentId || null.  The newId argument
    stands for the generated CHAR(36) primary key; idTaken models the
    impossibility of a duplicate key. -/
def createCategory (s : Store) (uid : String) (name color parentId : JField)
    (newId : String) (now : Nat) : CatCreateRes :=
  if !(validReqName name && validOptHexColor color && validOptUUID parentId) then
    .validationError
  else
    let parentOk :=
      match parentId with
      | .str p => (findCategory s uid p).isSome
      | _ => true
    if !parentOk then .notFound
    else if s.categories.any (fun c => c.id == newId) then .idTaken
    else
      let newCat : Category :=
        { id := newId
          name := (match name with | .str n => jsTrim n | _ => "")
          color := (match color with | .str c => c | _ => "#3b82f6")
          parentId := (match parentId with | .str p => some p | _ => none)
          userId := uid
          createdAt := now }
      .ok { s with categories := s.categories ++ [newCat] } newCat

inductive CatUpdateRes where
  | validationError
  | notFound
  | selfParent
  | cycle
  | diverge
  | ok (s : Store) (c : Category)
deriving DecidableEq

/-- The data object built by PUT /categories/:id applied to the existing row:

      data: { ...(name && { name }),
              ...(color && { color }),
              ...(parentId !== undefined && { parentId: parentId || null }) }

    name here is the trimmed value (trim sanitizer), so a name that trims to
    the empty string is dropped by the truthiness spread. -/
def mergeCategory (c : Category) (name color parentId : JField) : Category :=
  let c1 :=
    match name with
    | .str n => if jsTrim n == "" then c else { c with name := jsTrim n }
    | _ => c
  let c2 :=
    match color with
    | .str col => if col == "" then c1 else { c1 with color := col }
    | _ => c1
  match parentId with
  | .absent => c2
  | .null => { c2 with parentId := none }
  | .str p => { c2 with parentId := if p == "" then none else some p }

/-- The table after prisma.category.update({where: {id: i}, data}): every row
    whose id matches is replaced by its merged image. -/
def updateCats (cats : List Category) (i : String) (name color parentId : JField) :
    List Category :=
  cats.map (fun c => if c.id == i then mergeCategory c name color parentId else c)

/-- PUT /categories/:id.  Steps of the source, in order: validation; findFirst
    {id, userId} else 404; reject parentId === id; if parentId is truthy the
    parent must exist for this user, and checkCircular(parentId, id) must be
    false; then prisma.category.update({where: {id}, data}).  The fuel for
    checkCircular is the table size plus one; .diverge is returned when the
    recursion has not finished with that much fuel. -/
def updateCategory (s : Store) (uid i : String) (name color parentId : JField) :
    CatUpdateRes :=
  if !(validOptName name && validOptHexColor color && validOptUUID parentId) then
    .validationError
  else
    match findCategory s uid i with
    | none => .notFound
    | some _ =>
      if parentId == .str i then .selfParent
      else
        let circOk : Option Bool :=
          match parentId with
          | .str p =>
            if (findCategory s uid p).isSome then
              checkCircular s.categories p i (s.categories.length + 1)
            else none
          | _ => some false
        match parentId, circOk with
        | .str _, none =>
          if (match parentId with | .str p => (findCategory s uid p).isSome | _ => true) then
            .diverge
          else .notFound
        | _, some true => .cycle
        | _, _ =>
          let cats' := updateCats s.categories i name color parentId
          match lookupCat s.categories i with
          | none => .notFound
          | some cOld =>
            .ok { s with categories := cats' } (mergeCategory cOld name color parentId)

inductive CatDeleteRes where
  | notFound
  | hasChildren
  | ok (s : Store)
deriving DecidableEq

/-- The categories table after DELETE on id i: the row is removed and, per the
    self-referential FK ON DELETE SET NULL, any child row is detached (the
    route has already rejected the delete when children exist, so the detach
    map is vacuous on reachable states). -/
def deleteCats (cats : List Category) (i : String) : List Category :=
  (cats.filter (fun c => !(c.id == i))).map
    (fun c => if c.parentId == some i then { c with parentId := none } else c)

/-- The links table after DELETE on category i: links_category_id_fkey is
    ON DELETE SET NULL, so every referencing link is detached, not deleted. -/
def detachLinks (links : List Link) (i : String) : List Link :=
  links.map (fun l => if l.categoryId == some i then { l with categoryId := none } else l)

/-- DELETE /categories/:id.  findFirst {id, userId} with child count else 404;
    400 when the category has children; otherwise prisma.category.delete.
    The schema (prisma migration) declares both self-FK categories.parent_id
    and links.category_id ON DELETE SET NULL, so deleting the row nulls the
    parent_id of any child row and the category_id of every referencing link
    (detach, not delete). -/
def deleteCategory (s : Store) (uid i : String) : CatDeleteRes :=
  match findCategory s uid i with
  | none => .notFound
  | some _ =>
    if 0 < (s.categories.filter (fun c => c.parentId == some i)).length then
      .hasChildren
    else
      .ok ⟨deleteCats s.categories i, detachLinks s.links i⟩

/-- Insertion step of the key-descending sort. -/
def insertKeyDesc (key : α → Nat) (x : α) : List α → List α
  | [] => [x]
  | y :: ys => if key x ≤ key y then y :: insertKeyDesc key x ys else x :: y :: ys

/-- Sort by descending key: the embedding of Prisma
    orderBy: { createdAt: 'desc' } used by both listing routes (any sorting
    algorithm models the database ORDER BY equally well; insertion sort keeps
    the definition kernel-computable). -/
def sortByCreatedDesc (key : α → Nat) : List α → List α
  | [] => []
  | x :: xs => insertKeyDesc key x (sortByCreatedDesc key xs)

/-- GET /categories: findMany {where: {userId}, orderBy: {createdAt: 'desc'}}.
    The route also resolves parent/children/link-count summaries; the rows and
    their order are what the embedding keeps. -/
def listCategories (s : Store) (uid : String) : List Category :=
  sortByCreatedDesc (fun c => c.createdAt) (s.categories.filter (fun c => c.userId == uid))

/-! ## Link routes (backend/src/routes/link.routes.ts) -/

/-- JavaScript substring containment over char lists (String.prototype.includes). -/
def occursIn (needle : List Char) : List Char → Bool
  | [] => needle.isPrefixOf []
  | c :: t => needle.isPrefixOf (c :: t) || occursIn needle t

/-- str.includes(sub). -/
def strIncludes (s sub : String) : Bool :=
  occursIn sub.data s.data

/-- Prisma { contains: q, mode: 'insensitive' }: case-insensitive substring
    match (ILIKE %q%), modelled by lowercasing both sides. -/
def ciContains (hay q : String) : Bool :=
  occursIn (lowerStr q).data (lowerStr hay).data

/-- Truthiness of an optional query-string parameter: the route guards each
    filter with if (categoryId) etc., so an empty string disables the filter
    exactly like an absent one. -/
def truthyQ : Option String → Option String
  | none => none
  | some s => if s == "" then none else some s

/-- The where clause of GET /links for one row: userId always; categoryId and
    platform as exact matches when given; search as an OR of case-insensitive
    contains over title, description and url.  A null description never
    matches (SQL NULL semantics). -/
def linkWhere (uid : String) (categoryId platform search : Option String) (l : Link) :
    Bool :=
  l.userId == uid &&
  (match truthyQ categoryId with
   | some c => l.categoryId == some c
   | none => true) &&
  (match truthyQ platform with
   | some p => l.platform == p
   | none => true) &&
  (match truthyQ search with
   | some q =>
     ciContains l.title q ||
     (match l.description with
      | some d => ciContains d q
      | none => false) ||
     ciContains l.url q
   | none => true)

/-- GET /links with optional query parameters categoryId, platform, search;
    orderBy: { createdAt: 'desc' }. -/
def listLinks (s : Store) (uid : String) (categoryId platform search : Option String) :
    List Link :=
  sortByCreatedDesc (fun l => l.createdAt)
    (s.links.filter (linkWhere uid categoryId platform search))

inductive LinkGetRes where
  | notFound
  | ok (l : Link)
deriving DecidableEq

/-- GET /links/:id. -/
def getLink (s : Store) (uid i : String) : LinkGetRes :=
  match findLink s uid i with
  | none => .notFound
  | some l => .ok l

/-- Approximate model of validator.js isURL with its default options: a
    nonempty string without spaces whose host part (after an optional
    scheme://) contains a dot.  Only the absent/valid distinction matters to
    the theorems below; none of them exercises a concrete url through this
    validator. -/
def isURLApprox (s : String) : Bool :=
  let rest := ((s.splitOn "://").tail.headD s)
  let host := ((rest.splitOn "/").headD "").takeWhile (fun c => c != '?' && c != '#')
  !(s == "") && !(s.data.any (fun c => c == ' ')) && host.data.any (fun c => c == '.')

/-- Chain body('url').optional().isURL(). -/
def validOptURL : JField → Bool
  | .absent => true
  | .null => false
  | .str s => isURLApprox s

inductive LinkUpdateRes where
  | validationError
  | notFound
  | ok (s : Store) (l : Link)
deriving DecidableEq

/-- The data object of PUT /links/:id applied to the existing row:

      data: { ...(url && { url }), ...(title && { title }),
              ...(description !== undefined && { description }),
              ...(platform && { platform }),
              ...(categoryId !== undefined && { categoryId: categoryId || null }) }

    title/platform are trimmed by their sanitizers; a null description reaches
    the spread as the empty string after the trim sanitizer coerces it. -/
def mergeLink (l : Link) (url title description platform categoryId : JField) : Link :=
  let l1 := match url with
    | .str u => if u == "" then l else { l with url := u }
    | _ => l
  let l2 := match title with
    | .str t => if jsTrim t == "" then l1 else { l1 with title := jsTrim t }
    | _ => l1
  let l3 := match description with
    | .absent => l2
    | .null => { l2 with description := some "" }
    | .str d => { l2 with description := some (jsTrim d) }
  let l4 := match platform with
    | .str p => if jsTrim p == "" then l3 else { l3 with platform := jsTrim p }
    | _ => l3
  match categoryId with
  | .absent => l4
  | .null => { l4 with categoryId := none }
  | .str c => { l4 with categoryId := if c == "" then none else some c }

/-- PUT /links/:id.  Validation; findFirst {id, userId} else 404; when
    categoryId is truthy the category must exist for this user; then
    prisma.link.update({where: {id}, data}). -/
def updateLink (s : Store) (uid i : String)
    (url title description platform categoryId : JField) : LinkUpdateRes :=
  if !(validOptURL url && validOptName title && validOptName platform &&
       validOptUUID categoryId) then
    .validationError
  else
    match findLink s uid i with
    | none => .notFound
    | some _ =>
      let catOk :=
        match categoryId with
        | .str c => (findCategory s uid c).isSome
        | _ => true
      if !catOk then .notFound
      else
        let links' := s.links.map
          (fun l => if l.id == i then mergeLink l url title description platform categoryId
                    else l)
        match s.links.find? (fun l => l.id == i) with
        | none => .notFound
        | some lOld =>
          .ok { s with links := links' }
            (mergeLink lOld url title description platform categoryId)

inductive LinkDeleteRes where
  | notFound
  | ok (s : Store)
deriving DecidableEq

/-- DELETE /links/:id: findFirst {id, userId} else 404; prisma.link.delete. -/
def deleteLink (s : Store) (uid i : String) : LinkDeleteRes :=
  match findLink s uid i with
  | none => .notFound
  | some _ =>
    .ok { s with links := s.links.filter (fun l => !(l.id == i)) }

/-! ## Operation sequences through the category routes -/

inductive CatOp where
  | create (uid : String) (name color parentId : JField) (newId : String) (now : Nat)
  | update (uid i : String) (name color parentId : JField)
  | delete (uid i : String)

/-- Run one category route; the store is unchanged on any non-ok outcome
    (every error path of the handlers returns before writing). -/
def applyCatOp (s : Store) : CatOp → Store
  | .create uid nm col pid newId now =>
    match createCategory s uid nm col pid newId now with
    | .ok s' _ => s'
    | _ => s
  | .update uid i nm col pid =>
    match updateCategory s uid i nm col pid with
    | .ok s' _ => s'
    | _ => s
  | .delete uid i =>
    match deleteCategory s uid i with
    | .ok s' => s'
    | _ => s

/-- Run a sequence of category operations from a starting store. -/
def runCatOps (s : Store) : List CatOp → Store
  | [] => s
  | op :: ops => runCatOps (applyCatOp s op) ops

/-! ## Video/platform detector (src/lib/videoUtils.ts)

String helpers mirroring the JavaScript operations used by detectVideoUrl. -/

/-- str.split(sep)[0] for a nonempty separator. -/
def jsHead (s sep : String) : String :=
  (s.splitOn sep).headD s

/-- str.split(sep)[1] (the segment between the first and second occurrence of
    the separator; undefined, i.e. none, when the separator does not occur). -/
def jsSecond (s sep : String) : Option String :=
  (s.splitOn sep).get? 1

/-- Everything after the first occurrence of pat in s. -/
def afterFirstOcc (s pat : String) : Option String :=
  if strIncludes s pat then
    some (s.drop ((jsHead s pat).length + pat.length))
  else none

/-- Character class [a-zA-Z0-9_-] used by the video-id regexes. -/
def vidIdChar (c : Char) : Bool :=
  c.isAlphanum || c == '_' || c == '-'

/-- Case-insensitive prefix test over char lists. -/
def matchesAt (ci : Bool) (pat h : List Char) : Bool :=
  if ci then (pat.map Char.toLower).isPrefixOf (h.map Char.toLower)
  else pat.isPrefixOf h

/-- Leftmost regex match of the shape (lit1|lit2|...) followed by at least
    minLen characters of the class p; returns the (greedy) capture.  Scans
    positions left to right and alternatives in order, like a regex engine. -/
def scanCapture (ci : Bool) (pats : List (List Char)) (p : Char → Bool) (minLen : Nat) :
    List Char → Option (List Char)
  | [] => none
  | c :: t =>
    match (pats.find? (fun pat => matchesAt ci pat (c :: t))).bind (fun pat =>
      let cap := ((c :: t).drop pat.length).takeWhile p
      if minLen ≤ cap.length && 0 < cap.length then some cap else none) with
    | some cap => some cap
    | none => scanCapture ci pats p minLen t

/-- String wrapper of scanCapture. -/
def strScanCapture (ci : Bool) (s : String) (pats : List String) (p : Char → Bool)
    (minLen : Nat) : Option String :=
  (scanCapture ci (pats.map (fun x => x.data)) p minLen s.data).map (fun l => String.mk l)

/-- Rightmost match of lit followed by at least one character of class p
    (what the greedy .* in the TikTok hint regex selects). -/
def lastCap (pat : List Char) (p : Char → Bool) : List Char → Option (List Char)
  | [] => none
  | c :: t =>
    match lastCap pat p t with
    | some cap => some cap
    | none =>
      if pat.isPrefixOf (c :: t) then
        let cap := ((c :: t).drop pat.length).takeWhile p
        if 0 < cap.length then some cap else none
      else none

/-- Characters left unescaped by JavaScript encodeURIComponent. -/
def encSafe (c : Char) : Bool :=
  c.isAlphanum || [ '-', '_', '.', '!', '~', '*', '\'', '(', ')' ].contains c

/-- Upper-case hexadecimal digit. -/
def hexDigitChar (n : Nat) : Char :=
  if n < 10 then Char.ofNat (48 + n) else Char.ofNat (55 + n)

/-- JavaScript encodeURIComponent: percent-encodes the UTF-8 bytes of every
    character outside the unreserved set. -/
def encodeURIComponent (s : String) : String :=
  String.mk (s.data.foldr (fun c acc =>
    if encSafe c then c :: acc
    else (String.singleton c).toUTF8.toList.foldr
      (fun b acc2 => '%' :: hexDigitChar (b.toNat / 16) :: hexDigitChar (b.toNat % 16) :: acc2)
      acc) [])

/-- The pieces of new URL(url) that detectVideoUrl reads: hostname (lowercased
    by the URL parser), pathname, and searchParams as key/value pairs. -/
structure URLParts where
  scheme : String
  host : String
  pathname : String
  query : List (String × String)
deriving DecidableEq

/-- Scheme characters after the first: [a-zA-Z0-9+.-]. -/
def schemeTailChar (c : Char) : Bool :=
  c.isAlphanum || c == '+' || c == '.' || c == '-'

/-- Model of the WHATWG new URL(url) constructor for the absolute
    scheme://host/path?query URLs this application handles: the scheme must be
    alphabetic-led and followed by ://, the host must be nonempty.  Inputs
    without that shape are malformed and parse to none (new URL throws, landing
    detectVideoUrl in its catch branch).  Percent-decoding and punycode are not
    modelled; none of the theorems depends on them. -/
def parseUrl (s : String) : Option URLParts :=
  if strIncludes s "://" then
    let scheme := jsHead s "://"
    let rest := s.drop (scheme.length + 3)
    let authority := rest.takeWhile (fun c => c != '/' && c != '?' && c != '#')
    let hostport := (authority.splitOn "@").getLastD authority
    let host := jsHead hostport ":"
    let afterAuth := rest.drop authority.length
    let rawPath := afterAuth.takeWhile (fun c => c != '?' && c != '#')
    let afterPath := afterAuth.drop rawPath.length
    let qstr :=
      if afterPath.data.headD ' ' == '?' then
        (afterPath.drop 1).takeWhile (fun c => c != '#')
      else ""
    let pairs := (qstr.splitOn "&").filterMap (fun kv =>
      if kv == "" then none
      else
        let k := jsHead kv "="
        some (k, kv.drop (k.length + 1)))
    if scheme != "" && (scheme.data.headD ' ').isAlpha && scheme.data.tail.all schemeTailChar
       && host != "" then
      some { scheme := scheme
             host := lowerStr host
             pathname := if rawPath == "" then "/" else rawPath
             query := pairs }
    else none
  else none

/-- urlObj.searchParams.has(k). -/
def hasParam (u : URLParts) (k : String) : Bool :=
  (u.query.find? (fun kv => kv.1 == k)).isSome

/-- urlObj.searchParams.get(k), null as none. -/
def getParam (u : URLParts) (k : String) : Option String :=
  (u.query.find? (fun kv => kv.1 == k)).map (fun kv => kv.2)

inductive VPlatform where
  | youtube
  | instagram
  | tiktok
  | facebook
  | vimeo
  | unknown
deriving DecidableEq

/-- Result record of detectVideoUrl. -/
structure VideoInfo where
  isVideo : Bool
  embedUrl : Option String
  platform : VPlatform
  videoId : Option String
deriving DecidableEq

/-- The YouTube block of detectVideoUrl. -/
def tryYoutube (u : URLParts) (hostname pathname : String) : Option VideoInfo :=
  if strIncludes hostname "youtube.com" || strIncludes hostname "youtu.be" then
    let videoId : Option String :=
      if strIncludes hostname "youtu.be" then
        some (jsHead (jsHead (jsHead (pathname.drop 1) "?") "/") "#")
      else if hasParam u "v" then getParam u "v"
      else if strIncludes pathname "/watch/" then
        (jsSecond pathname "/watch/").map (fun r => jsHead (jsHead (jsHead r "/") "?") "#")
      else if strIncludes pathname "/embed/" then
        (jsSecond pathname "/embed/").map (fun r => jsHead (jsHead r "?") "#")
      else if strIncludes pathname "/v/" then
        (jsSecond pathname "/v/").map (fun r => jsHead (jsHead (jsHead r "/") "?") "#")
      else if strIncludes pathname "/shorts/" then
        (jsSecond pathname "/shorts/").map (fun r => jsHead (jsHead (jsHead r "/") "?") "#")
      else none
    match videoId with
    | some v =>
      if v != "" then
        let v' := jsTrim (jsHead (jsHead (jsHead v "&") "#") "?")
        if 8 ≤ v'.length && v'.data.all vidIdChar then
          some { isVideo := true
                 embedUrl := some ("https://www.youtube.com/embed/" ++ v')
                 platform := .youtube
                 videoId := some v' }
        else none
      else none
    | none => none
  else none

/-- The Instagram reel/tv block. -/
def tryInstagram (url : String) (hostname pathname : String) : Option VideoInfo :=
  if strIncludes hostname "instagram.com" then
    match strScanCapture true pathname [ "/reel/", "/tv/" ] vidIdChar 1 with
    | some reelId =>
      some { isVideo := true
             embedUrl := some ("https://www.instagram.com/p/" ++ reelId ++
               "/embed/?cr=1&v=14&wp=1080&rd=" ++ encodeURIComponent url)
             platform := .instagram
             videoId := some reelId }
    | none => none
  else none

/-- The TikTok block. -/
def tryTiktok (hostname pathname : String) : Option VideoInfo :=
  if strIncludes hostname "tiktok.com" then
    match strScanCapture false pathname [ "/video/" ] Char.isDigit 1 with
    | some videoId =>
      some { isVideo := true
             embedUrl := some ("https://www.tiktok.com/embed/v2/" ++ videoId)
             platform := .tiktok
             videoId := some videoId }
    | none => none
  else none

/-- The Facebook block; the videoId variable is a string with the empty string
    standing for null (all of its uses in the source are truthiness tests). -/
def tryFacebook (url : String) (u : URLParts) (hostname pathname : String) :
    Option VideoInfo :=
  if strIncludes hostname "facebook.com" || strIncludes hostname "fb.com" ||
     strIncludes hostname "fb.watch" then
    let vid1 := (strScanCapture false pathname [ "/videos/" ] Char.isDigit 1).getD ""
    let vid2 :=
      if vid1 == "" then (strScanCapture false pathname [ "/reel/" ] vidIdChar 1).getD ""
      else vid1
    let vid3 :=
      if vid2 == "" && hasParam u "v" then (getParam u "v").getD ""
      else vid2
    let vid4 :=
      if vid3 == "" && strIncludes hostname "fb.watch" then
        jsHead (jsHead (pathname.drop 1) "?") "/"
      else vid3
    let isVideoUrl :=
      vid4 != "" || strIncludes pathname "/watch" || strIncludes pathname "/reel" ||
      strIncludes pathname "/videos/" || strIncludes pathname "/video/" ||
      strIncludes hostname "fb.watch"
    if isVideoUrl then
      some { isVideo := true
             embedUrl := some ("https://www.facebook.com/plugins/video.php?href=" ++
               encodeURIComponent url ++ "&show_text=false&width=500")
             platform := .facebook
             videoId := if vid4 == "" then none else some vid4 }
    else none
  else none

/-- The Vimeo block. -/
def tryVimeo (hostname pathname : String) : Option VideoInfo :=
  if strIncludes hostname "vimeo.com" then
    match strScanCapture false pathname [ "/" ] Char.isDigit 1 with
    | some videoId =>
      some { isVideo := true
             embedUrl := some ("https://player.vimeo.com/video/" ++ videoId)
             platform := .vimeo
             videoId := some videoId }
    | none => none
  else none

/-- The platform-hint fallback section (operating on the raw url string). -/
def tryHint (url : String) (platformHint : Option String) : Option VideoInfo :=
  match platformHint with
  | none => none
  | some hint =>
    let pl := lowerStr hint
    let yt :=
      if pl == "youtube" || strIncludes pl "youtube" then
        match strScanCapture false url
          [ "youtube.com/watch?v=", "youtu.be/", "youtube.com/embed/",
            "youtube.com/v/", "youtube.com/shorts/" ] vidIdChar 8 with
        | some v =>
          some { isVideo := true
                 embedUrl := some ("https://www.youtube.com/embed/" ++ v)
                 platform := .youtube
                 videoId := some v }
        | none => none
      else none
    match yt with
    | some r => some r
    | none =>
      let ig :=
        if pl == "instagram" || strIncludes pl "instagram" then
          match strScanCapture true url [ "instagram.com/reel/", "instagram.com/tv/" ]
              vidIdChar 1 with
          | some v =>
            some { isVideo := true
                   embedUrl := some ("https://www.instagram.com/p/" ++ v ++ "/embed/")
                   platform := .instagram
                   videoId := some v }
          | none => none
        else none
      match ig with
      | some r => some r
      | none =>
        let tk :=
          if pl == "tiktok" || strIncludes pl "tiktok" then
            match (afterFirstOcc url "tiktok.com/").bind
                (fun rest => (lastCap "/video/".data Char.isDigit rest.data).map
                  (fun l => String.mk l)) with
            | some v =>
              some { isVideo := true
                     embedUrl := some ("https://www.tiktok.com/embed/v2/" ++ v)
                     platform := .tiktok
                     videoId := some v }
            | none => none
          else none
        match tk with
        | some r => some r
        | none =>
          let fb :=
            if pl == "facebook" || strIncludes pl "facebook" then
              if strIncludes url "/videos/" || strIncludes url "/reel/" ||
                 strIncludes url "/watch" || strIncludes url "fb.watch" then
                some { isVideo := true
                       embedUrl := some ("https://www.facebook.com/plugins/video.php?href=" ++
                         encodeURIComponent url ++ "&show_text=false&width=500")
                       platform := .facebook
                       videoId := none }
              else none
            else none
          match fb with
          | some r => some r
          | none =>
            if pl == "vimeo" || strIncludes pl "vimeo" then
              match strScanCapture false url [ "vimeo.com/" ] Char.isDigit 1 with
              | some v =>
                some { isVideo := true
                       embedUrl := some ("https://player.vimeo.com/video/" ++ v)
                       platform := .vimeo
                       videoId := some v }
              | none => none
            else none

/-- detectVideoUrl(url, platformHint): parse the URL (any parse failure is
    caught and yields the not-a-video result), then try the platform blocks in
    source order, then the hint fallbacks, then the default. -/
def detectVideoUrl (url : String) (platformHint : Option String) : VideoInfo :=
  match parseUrl url with
  | none => { isVideo := false, embedUrl := none, platform := .unknown, videoId := none }
  | some u =>
    let hostname := lowerStr u.host
    let pathname := u.pathname
    match tryYoutube u hostname pathname with
    | some r => r
    | none =>
      match tryInstagram url hostname pathname with
      | some r => r
      | none =>
        match tryTiktok hostname pathname with
        | some r => r
        | none =>
          match tryFacebook url u hostname pathname with
          | some r => r
          | none =>
            match tryVimeo hostname pathname with
            | some r => r
            | none =>
              match tryHint url platformHint with
              | some r => r
              | none =>
                { isVideo := false, embedUrl := none, platform := .unknown,
                  videoId := none }

/-! ## Concrete fixtures used by the witnesses and counterexamples -/

def uidMain : String := "11111111-1111-1111-1111-111111111111"

def uidOther : String := "22222222-2222-2222-2222-222222222222"

def idA : String := "aaaaaaaa-aaaa-aaaa-aaaa-aaaaaaaaaaaa"

def idB : String := "bbbbbbbb-bbbb-bbbb-bbbb-bbbbbbbbbbbb"

def idC : String := "cccccccc-cccc-cccc-cccc-cccccccccccc"

def idD : String := "dddddddd-dddd-dddd-dddd-dddddddddddd"

/-- Top-level category A of the main user. -/
def catA : Category := ⟨idA, "A", "#3b82f6", none, uidMain, 1⟩

/-- Category C, child of A. -/
def catC : Category := ⟨idC, "C", "#3b82f6", some idA, uidMain, 2⟩

/-- Top-level category B of the main user. -/
def catB : Category := ⟨idB, "B", "#3b82f6", none, uidMain, 3⟩

/-- Store in which A has child C and B is a separate top-level category. -/
def demoNest : Store := ⟨[catA, catC, catB], []⟩

/-- Three creates through POST /categories: A top-level, B under A, C under B. -/
def demoOps : List CatOp :=
  [ .create uidMain (.str "A") .absent .absent idA 1,
    .create uidMain (.str "B") .absent (.str idA) idB 2,
    .create uidMain (.str "C") .absent (.str idB) idC 3 ]

/-- Two categories whose creation order is the reverse of their name order. -/
def demoSort : Store :=
  ⟨[ ⟨idA, "Alpha", "#3b82f6", none, uidMain, 1⟩,
     ⟨idB, "Zeta", "#3b82f6", none, uidMain, 2⟩ ], []⟩

/-- Link whose title mentions Rust, for the search property. -/
def rustLink : Link :=
  ⟨idC, "Great Article on Rust", "https://example.com/article", none, "Other",
   none, uidMain, 5⟩

def demoSearch : Store := ⟨[], [rustLink]⟩

/-- Categories table with a parent cycle between A and B (a state the routes
    never create, used to exhibit the divergence of checkCircular). -/
def demoCyc : List Category :=
  [ ⟨idA, "A", "#3b82f6", some idB, uidMain, 1⟩,
    ⟨idB, "B", "#3b82f6", some idA, uidMain, 2⟩ ]

/-- Store whose category and link both belong to the other user. -/
def demoForeign : Store :=
  ⟨[ ⟨idA, "Foreign", "#3b82f6", none, uidOther, 1⟩ ],
   [ ⟨idB, "Foreign link", "https://example.com/a", none, "Other", none, uidOther, 1⟩ ]⟩

/-- Store with one childless category referenced by one of two links. -/
def demoDel : Store :=
  ⟨[ ⟨idA, "A", "#3b82f6", none, uidMain, 1⟩ ],
   [ ⟨idB, "L1", "https://example.com/1", none, "Other", some idA, uidMain, 1⟩,
     ⟨idC, "L2", "https://example.com/2", none, "Other", none, uidMain, 2⟩ ]⟩

/-! ## Theorems -/

/-- C1 counterexample: the claim says that after every sequence of category
    operations no category has a parent that itself has a non-null parent_id.
    Running three creates (A; B under A; C under B) from the empty store
    through POST /categories yields a category (C) whose parent (B) has a
    non-null parent_id: the 2-level invariant is not enforced by create. -/
theorem twoLevelViolatedByCreates :
    ((runCatOps emptyStore demoOps).categories.any (fun c =>
      match c.parentId with
      | some p => (parentStep (runCatOps emptyStore demoOps).categories p).isSome
      | none => false)) = true := by decide

/-- C2 counterexample: the claim says every update that sets a non-null
    parent_id on a category with at least one child is rejected with
    InvalidOperation.  In demoNest, A has child C, yet PUT /categories/:id
    setting A's parent to the unrelated top-level B succeeds (there is no
    children check in the route); afterwards A both has a child and a parent. -/
theorem parentWithChildrenReparented :
    (demoNest.categories.any (fun c => c.parentId == some idA)) = true ∧
    updateCategory demoNest uidMain idA .absent .absent (.str idB) =
      .ok ⟨[{ catA with parentId := some idB }, catC, catB], []⟩
        { catA with parentId := some idB } := by
  constructor
  · decide
  · decide

/-- C5 counterexample: the claim says GET /categories returns categories
    sorted by name ascending.  The route orders by createdAt descending:
    with Alpha created before Zeta the listing is [Zeta, Alpha], which is not
    ascending by name. -/
theorem categoriesNotSortedByName :
    (listCategories demoSort uidMain).map (fun c => c.name) = ["Zeta", "Alpha"] ∧
    ¬("Zeta" ≤ "Alpha") := by
  refine ⟨by decide, ?_⟩
  rw [String.le_iff_toList_le]
  decide

/-- C7 (code bug): the claim (and the spec) says removing a category's parent
    is always allowed, and the update data expression parentId || null shows
    the handler was written to null the field for a falsy value; but the
    validator chain body('parentId').optional().isUUID() only skips undefined,
    so a null (or empty-string) parentId fails validation with 400 and never
    reaches the write.  On the parented category C: a null parentId and an
    empty parentId are rejected; a name-only update keeps the parent; a valid
    UUID parentId sets that parent.  No accepted request can make the
    parent_id null, so the Parented-to-Unparented transition is unreachable
    through PUT /categories/:id. -/
theorem unparentImpossibleThroughUpdate :
    updateCategory demoNest uidMain idC .absent .absent .null = .validationError ∧
    updateCategory demoNest uidMain idC .absent .absent (.str "") = .validationError ∧
    updateCategory demoNest uidMain idC (.str "C2") .absent .absent =
      .ok ⟨[catA, { catC with name := "C2" }, catB], []⟩ { catC with name := "C2" } ∧
    updateCategory demoNest uidMain idC .absent .absent (.str idB) =
      .ok ⟨[catA, { catC with parentId := some idB }, catB], []⟩
        { catC with parentId := some idB } := by
  refine ⟨by decide, by decide, by decide, by decide⟩

/-! ### Parent-chain walk lemmas -/

theorem chainTerm_mono {cats : List Category} :
    ∀ {n m : Nat} {x : String}, chainTerm cats x n = true → n ≤ m →
      chainTerm cats x m = true := by
  intro n
  induction n with
  | zero => intro m x h _; simp [chainTerm] at h
  | succ k ih =>
    intro m x h hle
    match m, hle with
    | m' + 1, _ =>
      rw [chainTerm] at h ⊢
      cases hps : parentStep cats x with
      | none => rfl
      | some p =>
        rw [hps] at h
        exact ih h (by omega)

theorem checkCircular_eq_of_chainTerm {cats : List Category} {t : String} :
    ∀ {n : Nat} {x : String}, chainTerm cats x n = true →
      checkCircular cats x t n = some (chainHits cats t x n) := by
  intro n
  induction n with
  | zero => intro x h; simp [chainTerm] at h
  | succ k ih =>
    intro x h
    rw [chainTerm] at h
    rw [checkCircular, chainHits]
    cases hps : parentStep cats x with
    | none => rfl
    | some p =>
      rw [hps] at h
      by_cases hpt : (p == t) = true
      · simp [hpt]
      · simp only [Bool.not_eq_true] at hpt
        simp [hpt, ih h]

theorem checkCircular_some_false {cats : List Category} {t : String} :
    ∀ {n : Nat} {x : String}, checkCircular cats x t n = some false →
      chainTerm cats x n = true ∧ chainHits cats t x n = false := by
  intro n
  induction n with
  | zero => intro x h; simp [checkCircular] at h
  | succ k ih =>
    intro x h
    rw [checkCircular] at h
    rw [chainTerm, chainHits]
    cases hps : parentStep cats x with
    | none => exact ⟨rfl, rfl⟩
    | some p =>
      simp only [hps] at h ⊢
      by_cases hpt : (p == t) = true
      · simp [hpt] at h
      · simp only [Bool.not_eq_true] at hpt
        simp only [hpt] at h ⊢
        simp only [Bool.false_eq_true, if_false] at h
        obtain ⟨h1, h2⟩ := ih h
        simp [h1, h2]

theorem chainTerm_congr {cats cats' : List Category}
    (hag : ∀ y, parentStep cats' y = parentStep cats y) :
    ∀ {n : Nat} {x : String}, chainTerm cats x n = true → chainTerm cats' x n = true := by
  intro n
  induction n with
  | zero => intro x h; simp [chainTerm] at h
  | succ k ih =>
    intro x h
    rw [chainTerm] at h ⊢
    rw [hag x]
    cases hps : parentStep cats x with
    | none => rfl
    | some p =>
      rw [hps] at h
      exact ih h

theorem chainTerm_transfer {cats cats' : List Category} {z : String}
    (hag : ∀ y, y ≠ z → parentStep cats' y = parentStep cats y) :
    ∀ {n : Nat} {x : String}, x ≠ z → chainHits cats z x n = false →
      chainTerm cats x n = true → chainTerm cats' x n = true := by
  intro n
  induction n with
  | zero => intro x _ _ h; simp [chainTerm] at h
  | succ k ih =>
    intro x hxz hmiss h
    rw [chainTerm] at h ⊢
    rw [chainHits] at hmiss
    rw [hag x hxz]
    cases hps : parentStep cats x with
    | none => rfl
    | some p =>
      rw [hps] at h hmiss
      simp only [Bool.or_eq_false_iff, beq_eq_false_iff_ne, ne_eq] at hmiss
      exact ih hmiss.1 hmiss.2 h

theorem chainTerm_extend {cats cats' : List Category} {z : String} {m : Nat}
    (hag : ∀ y, y ≠ z → parentStep cats' y = parentStep cats y)
    (hz : chainTerm cats' z m = true) :
    ∀ {n : Nat} {x : String}, chainTerm cats x n = true →
      chainTerm cats' x (m + n) = true := by
  intro n
  induction n with
  | zero => intro x h; simp [chainTerm] at h
  | succ k ih =>
    intro x h
    by_cases hxz : x = z
    · subst hxz
      exact chainTerm_mono hz (by omega)
    · rw [chainTerm] at h
      show chainTerm cats' x (m + k + 1) = true
      rw [chainTerm]
      rw [hag x hxz]
      cases hps : parentStep cats x with
      | none => rfl
      | some p =>
        rw [hps] at h
        exact ih h

theorem parentStep_mem {cats : List Category} {x p : String}
    (h : parentStep cats x = some p) :
    ∃ c ∈ cats, c.id = x ∧ c.parentId = some p := by
  rw [parentStep] at h
  cases hl : lookupCat cats x with
  | none => rw [hl] at h; simp at h
  | some c =>
    rw [hl] at h
    refine ⟨c, List.mem_of_find?_eq_some hl, ?_, h⟩
    have := List.find?_some hl
    simpa using this

theorem chainHits_fresh {cats : List Category} {nid : String}
    (href : RefInt cats) (hfresh : ∀ d ∈ cats, d.id ≠ nid) :
    ∀ {n : Nat} {x : String}, chainHits cats nid x n = false := by
  intro n
  induction n with
  | zero => intro x; rfl
  | succ k ih =>
    intro x
    rw [chainHits]
    cases hps : parentStep cats x with
    | none => rfl
    | some p =>
      obtain ⟨c, hc, _, hcp⟩ := parentStep_mem hps
      obtain ⟨d, hd, hdp⟩ := href c hc p hcp
      have hpn : p ≠ nid := hdp ▸ hfresh d hd
      simp [hpn, ih]

/-! ### Lookup and merge lemmas -/

theorem mergeCategory_id (c : Category) (nm col pid : JField) :
    (mergeCategory c nm col pid).id = c.id := by
  cases nm <;> cases col <;> cases pid <;>
    simp only [mergeCategory] <;> split <;> try split
  all_goals rfl

theorem mergeCategory_parentId_absent (c : Category) (nm col : JField) :
    (mergeCategory c nm col .absent).parentId = c.parentId := by
  cases nm <;> cases col <;>
    simp only [mergeCategory] <;> split <;> try split
  all_goals rfl

theorem mergeCategory_parentId_str (c : Category) (nm col : JField) {p : String}
    (hp : p ≠ "") : (mergeCategory c nm col (.str p)).parentId = some p := by
  have hpb : (p == "") = false := by simpa using hp
  cases nm <;> cases col <;>
    simp only [mergeCategory, hpb] <;> split <;> try split
  all_goals simp_all

theorem isUUID_ne_empty {p : String} (h : isUUID p = true) : p ≠ "" := by
  intro he
  subst he
  simp [isUUID] at h

theorem lookupCat_map_preserveId {cats : List Category} {g : Category → Category}
    (hg : ∀ c, (g c).id = c.id) (y : String) :
    lookupCat (cats.map g) y = (lookupCat cats y).map g := by
  unfold lookupCat
  have hpred : ((fun c => c.id == y) ∘ g) = (fun c : Category => c.id == y) := by
    funext c
    simp [Function.comp, hg]
  rw [List.find?_map, hpred]

theorem updateCats_id_eq (cats : List Category) (i : String) (nm col pid : JField) :
    ∀ c, ((fun c => if c.id == i then mergeCategory c nm col pid else c) c).id = c.id := by
  intro c
  by_cases h : (c.id == i) = true
  · simp [h, mergeCategory_id]
  · simp only [Bool.not_eq_true] at h
    simp [h]

theorem parentStep_updateCats_ne {cats : List Category} {i : String}
    {nm col pid : JField} {y : String} (hy : y ≠ i) :
    parentStep (updateCats cats i nm col pid) y = parentStep cats y := by
  unfold parentStep updateCats
  rw [lookupCat_map_preserveId (updateCats_id_eq cats i nm col pid)]
  cases hl : lookupCat cats y with
  | none => rfl
  | some r =>
    have hid : r.id = y := by simpa using List.find?_some hl
    have hne : ¬(r.id = i) := by rw [hid]; exact hy
    simp [hne]

theorem parentStep_updateCats_self {cats : List Category} {i : String}
    {nm col : JField} {p : String} (hp : p ≠ "")
    (hl : (lookupCat cats i).isSome = true) :
    parentStep (updateCats cats i nm col (.str p)) i = some p := by
  unfold parentStep updateCats
  rw [lookupCat_map_preserveId (updateCats_id_eq cats i nm col (.str p))]
  obtain ⟨r, hr⟩ := Option.isSome_iff_exists.mp hl
  have hid : r.id = i := by simpa using List.find?_some hr
  simp [hr, hid, mergeCategory_parentId_str r nm col hp]

theorem lookupCat_append_ne {cats : List Category} {d : Category} {y : String}
    (hd : d.id ≠ y) : lookupCat (cats ++ [d]) y = lookupCat cats y := by
  unfold lookupCat
  rw [List.find?_append]
  cases hl : cats.find? (fun c => c.id == y) with
  | some r => rfl
  | none =>
    have hdb : (d.id == y) = false := by simpa using hd
    simp [List.find?, hdb]

theorem parentStep_append_ne {cats : List Category} {d : Category} {y : String}
    (hd : d.id ≠ y) : parentStep (cats ++ [d]) y = parentStep cats y := by
  unfold parentStep
  rw [lookupCat_append_ne hd]

theorem lookupCat_none_of_fresh {cats : List Category} {y : String}
    (h : ∀ c ∈ cats, c.id ≠ y) : lookupCat cats y = none := by
  unfold lookupCat
  rw [List.find?_eq_none]
  intro c hc
  simp [h c hc]

theorem parentStep_append_fresh {cats : List Category} {d : Category}
    (hfresh : ∀ c ∈ cats, c.id ≠ d.id) :
    parentStep (cats ++ [d]) d.id = d.parentId := by
  unfold parentStep lookupCat
  rw [List.find?_append]
  rw [show List.find? (fun c => c.id == d.id) cats = none from by
    rw [List.find?_eq_none]; intro c hc; simp [hfresh c hc]]
  simp [List.find?]

theorem lookupCat_eq_of_mem {cats : List Category} (hnd : NodupCatIds cats)
    {c : Category} (hc : c ∈ cats) : lookupCat cats c.id = some c := by
  cases hl : lookupCat cats c.id with
  | none =>
    rw [lookupCat, List.find?_eq_none] at hl
    exact absurd (by simp : (c.id == c.id) = true) (hl c hc)
  | some r =>
    have hr : r ∈ cats := List.mem_of_find?_eq_some hl
    have hrid : r.id = c.id := by simpa using List.find?_some hl
    rw [List.inj_on_of_nodup_map hnd hr hc hrid]

theorem findCategory_isSome_lookup {s : Store} {uid i : String}
    (h : (findCategory s uid i).isSome = true) :
    ∃ r, lookupCat s.categories i = some r ∧ r.id = i := by
  obtain ⟨c, hc⟩ := Option.isSome_iff_exists.mp h
  have hcm := List.mem_of_find?_eq_some hc
  have hcp := List.find?_some hc
  simp only [Bool.and_eq_true, beq_iff_eq] at hcp
  have : (lookupCat s.categories i).isSome = true := by
    rw [lookupCat, List.find?_isSome]
    exact ⟨c, hcm, by simp [hcp.1]⟩
  obtain ⟨r, hr⟩ := Option.isSome_iff_exists.mp this
  exact ⟨r, hr, by simpa using List.find?_some hr⟩

/-! ### Route success characterizations and invariant preservation -/

theorem findCategory_some_mem {s : Store} {uid p : String}
    (h : (findCategory s uid p).isSome = true) :
    ∃ r ∈ s.categories, r.id = p ∧ r.userId = uid := by
  rw [findCategory, List.find?_isSome] at h
  obtain ⟨r, hr, hp⟩ := h
  simp only [Bool.and_eq_true, beq_iff_eq] at hp
  exact ⟨r, hr, hp.1, hp.2⟩

theorem createCategory_ok_facts {s : Store} {uid : String} {nm col pid : JField}
    {newId : String} {now : Nat} {s' : Store} {c' : Category}
    (h : createCategory s uid nm col pid newId now = .ok s' c') :
    (∀ d ∈ s.categories, d.id ≠ newId) ∧
    c'.id = newId ∧ c'.userId = uid ∧
    (pid = .absent → c'.parentId = none) ∧
    (∀ p, pid = .str p → c'.parentId = some p ∧ (findCategory s uid p).isSome = true) ∧
    s'.categories = s.categories ++ [c'] ∧ s'.links = s.links ∧ pid ≠ .null := by
  unfold createCategory at h
  cases pid with
  | null =>
    split at h
    · simp at h
    · rename_i hval
      simp [validOptUUID] at hval
  | absent =>
    split at h
    · simp at h
    · dsimp only at h
      split at h
      · simp at h
      · split at h
        · simp at h
        · rename_i hfresh
          rw [CatCreateRes.ok.injEq] at h
          obtain ⟨hs, hc⟩ := h
          have hfreshb : (s.categories.any fun c => c.id == newId) = false := by
            simpa using hfresh
          have hfresh' : ∀ d ∈ s.categories, d.id ≠ newId := by
            intro d hd
            simpa using List.any_eq_false.mp hfreshb d hd
          subst hs
          subst hc
          exact ⟨hfresh', rfl, rfl, fun _ => rfl,
            fun p hp => JField.noConfusion hp, rfl, rfl, by simp⟩
  | str p =>
    split at h
    · simp at h
    · dsimp only at h
      split at h
      · simp at h
      · rename_i hpar
        split at h
        · simp at h
        · rename_i hfresh
          rw [CatCreateRes.ok.injEq] at h
          obtain ⟨hs, hc⟩ := h
          have hfreshb : (s.categories.any fun c => c.id == newId) = false := by
            simpa using hfresh
          have hfresh' : ∀ d ∈ s.categories, d.id ≠ newId := by
            intro d hd
            simpa using List.any_eq_false.mp hfreshb d hd
          have hpar' : (findCategory s uid p).isSome = true := by
            rw [Option.isSome_iff_ne_none]
            simpa using hpar
          subst hs
          subst hc
          refine ⟨hfresh', rfl, rfl, fun hp => JField.noConfusion hp, ?_, rfl, rfl, by simp⟩
          intro p' hp'
          injection hp' with he
          subst he
          exact ⟨rfl, hpar'⟩

theorem updateCategory_ok_facts {s : Store} {uid i : String} {nm col pid : JField}
    {s' : Store} {c' : Category}
    (h : updateCategory s uid i nm col pid = .ok s' c') :
    validOptName nm = true ∧ validOptHexColor col = true ∧ validOptUUID pid = true ∧
    (findCategory s uid i).isSome = true ∧
    s'.categories = updateCats s.categories i nm col pid ∧ s'.links = s.links ∧
    (∃ cOld, lookupCat s.categories i = some cOld ∧ c' = mergeCategory cOld nm col pid) ∧
    pid ≠ .null ∧
    (∀ p, pid = .str p → p ≠ i ∧ (findCategory s uid p).isSome = true ∧
       checkCircular s.categories p i (s.categories.length + 1) = some false) := by
  unfold updateCategory at h
  cases pid with
  | null =>
    split at h
    · simp at h
    · rename_i hval
      simp [validOptUUID] at hval
  | absent =>
    split at h
    · simp at h
    · rename_i hval
      have hval2 : (validOptName nm && validOptHexColor col && validOptUUID JField.absent)
          = true := by
        revert hval
        cases validOptName nm && validOptHexColor col && validOptUUID JField.absent <;> simp
      simp only [validOptUUID, Bool.and_true, Bool.and_eq_true] at hval2
      split at h
      · simp at h
      · rename_i c0 hfind
        rw [if_neg (by simp)] at h
        dsimp only at h
        split at h
        · simp at h
        · rename_i cOld hlook
          rw [CatUpdateRes.ok.injEq] at h
          obtain ⟨hs, hc⟩ := h
          subst hs
          subst hc
          exact ⟨hval2.1, hval2.2, rfl, by rw [hfind]; rfl, rfl, rfl,
            ⟨cOld, hlook, rfl⟩, by simp, fun p hp => JField.noConfusion hp⟩
  | str p =>
    split at h
    · simp at h
    · rename_i hval
      have hval2 : (validOptName nm && validOptHexColor col && validOptUUID (JField.str p))
          = true := by
        revert hval
        cases validOptName nm && validOptHexColor col && validOptUUID (JField.str p) <;> simp
      simp only [validOptUUID, Bool.and_eq_true] at hval2
      split at h
      · simp at h
      · rename_i c0 hfind
        by_cases hself : ((JField.str p == JField.str i) = true)
        · rw [if_pos hself] at h
          simp at h
        · rw [if_neg hself] at h
          have hpi : p ≠ i := by
            intro he
            exact hself (by rw [he]; simp)
          dsimp only at h
          by_cases hps : (findCategory s uid p).isSome = true
          · simp only [hps, if_true] at h
            cases hcc : checkCircular s.categories p i (s.categories.length + 1) with
            | none =>
              rw [hcc] at h
              simp [hps] at h
            | some b =>
              rw [hcc] at h
              cases b with
              | true => simp at h
              | false =>
                dsimp only at h
                split at h
                · simp at h
                · rename_i cOld hlook
                  rw [CatUpdateRes.ok.injEq] at h
                  obtain ⟨hs, hc⟩ := h
                  subst hs
                  subst hc
                  refine ⟨hval2.1.1, hval2.1.2, hval2.2, by rw [hfind]; rfl, rfl, rfl,
                    ⟨cOld, hlook, rfl⟩, by simp, ?_⟩
                  intro p' hp'
                  injection hp' with he
                  subst he
                  exact ⟨hpi, hps, hcc⟩
          · simp only [Bool.not_eq_true] at hps
            simp only [hps, Bool.false_eq_true, if_false] at h
            simp [hps] at h

theorem deleteCategory_ok_facts {s : Store} {uid i : String} {s' : Store}
    (h : deleteCategory s uid i = .ok s') :
    (findCategory s uid i).isSome = true ∧
    (s.categories.filter (fun c => c.parentId == some i)).length = 0 ∧
    s' = ⟨deleteCats s.categories i, detachLinks s.links i⟩ := by
  unfold deleteCategory at h
  split at h
  · simp at h
  · rename_i c0 hfind
    split at h
    · simp at h
    · rename_i hch
      rw [CatDeleteRes.ok.injEq] at h
      refine ⟨by rw [hfind]; rfl, by omega, h.symm⟩

theorem parentStep_updateCats_absent {cats : List Category} {i : String}
    {nm col : JField} (y : String) :
    parentStep (updateCats cats i nm col .absent) y = parentStep cats y := by
  unfold parentStep updateCats
  rw [lookupCat_map_preserveId (updateCats_id_eq cats i nm col .absent)]
  cases hl : lookupCat cats y with
  | none => rfl
  | some r =>
    by_cases hri : r.id = i
    · simp [hri, mergeCategory_parentId_absent]
    · simp [hri]

theorem updateCats_ids (cats : List Category) (i : String) (nm col pid : JField) :
    (updateCats cats i nm col pid).map (fun c => c.id) = cats.map (fun c => c.id) := by
  unfold updateCats
  rw [List.map_map]
  exact List.map_congr_left (fun c _ => updateCats_id_eq cats i nm col pid c)

theorem chainTerm_delete {cats : List Category} {i : String} (hnd : NodupCatIds cats) :
    ∀ {n : Nat} {x : String}, chainTerm cats x n = true →
      chainTerm (deleteCats cats i) x n = true := by
  intro n
  induction n with
  | zero => intro x h; simp [chainTerm] at h
  | succ k ih =>
    intro x h
    rw [chainTerm]
    cases hps : parentStep (deleteCats cats i) x with
    | none => rfl
    | some p =>
      obtain ⟨c'', hc'', hcid, hcp⟩ := parentStep_mem hps
      rw [deleteCats] at hc''
      obtain ⟨c, hcmem, hceq⟩ := List.mem_map.mp hc''
      obtain ⟨hcmem', hcfilt⟩ := List.mem_filter.mp hcmem
      by_cases hdet : (c.parentId == some i) = true
      · rw [← hceq] at hcp
        simp [hdet] at hcp
      · simp only [Bool.not_eq_true] at hdet
        have hceq' : c'' = c := by rw [← hceq]; simp [hdet]
        subst hceq'
        have hlook : lookupCat cats x = some c'' := by
          rw [← hcid]
          exact lookupCat_eq_of_mem hnd hcmem'
        rw [chainTerm] at h
        rw [show parentStep cats x = some p from by rw [parentStep, hlook]; exact hcp] at h
        exact ih h

theorem createCategory_inv {s s' : Store} {uid : String} {nm col pid : JField}
    {newId : String} {now : Nat} {c' : Category}
    (hinv : StoreInv s) (h : createCategory s uid nm col pid newId now = .ok s' c') :
    StoreInv s' := by
  obtain ⟨hnd, href, hacy⟩ := hinv
  obtain ⟨hfresh, hid, _, hpabs, hpstr, hcats, _, hnonull⟩ := createCategory_ok_facts h
  have hfresh2 : ∀ d ∈ s.categories, d.id ≠ c'.id := by
    intro d hd
    rw [hid]
    exact hfresh d hd
  have hag : ∀ y, y ≠ c'.id →
      parentStep (s.categories ++ [c']) y = parentStep s.categories y := by
    intro y hy
    exact parentStep_append_ne (fun he => hy he.symm)
  refine ⟨?_, ?_, ?_⟩
  · show ((s'.categories).map (fun c => c.id)).Nodup
    rw [hcats, List.map_append, List.nodup_append]
    refine ⟨hnd, by simp, ?_⟩
    intro y hy hy'
    simp only [List.map_cons, List.map_nil, List.mem_singleton] at hy'
    obtain ⟨d, hd, hdy⟩ := List.mem_map.mp hy
    exact hfresh2 d hd (by rw [hdy, hy'])
  · show RefInt s'.categories
    rw [hcats]
    intro c hc p hp
    rcases List.mem_append.mp hc with hc | hc
    · obtain ⟨d, hd, hdp⟩ := href c hc p hp
      exact ⟨d, List.mem_append_left _ hd, hdp⟩
    · simp only [List.mem_singleton] at hc
      subst hc
      cases pid with
      | absent => rw [hpabs rfl] at hp; exact absurd hp (by simp)
      | null => exact absurd rfl hnonull
      | str q =>
        obtain ⟨hcq, hqfind⟩ := hpstr q rfl
        rw [hcq] at hp
        simp only [Option.some.injEq] at hp
        subst hp
        obtain ⟨r, hr, hrid, _⟩ := findCategory_some_mem hqfind
        exact ⟨r, List.mem_append_left _ hr, hrid⟩
  · show Acyclic s'.categories
    rw [hcats]
    intro c hc
    rcases List.mem_append.mp hc with hc | hc
    · obtain ⟨n, hn⟩ := hacy c hc
      exact ⟨n, chainTerm_transfer hag (hfresh2 c hc)
        (chainHits_fresh href hfresh2) hn⟩
    · simp only [List.mem_singleton] at hc
      subst hc
      have hstep : parentStep (s.categories ++ [c]) c.id = c.parentId :=
        parentStep_append_fresh hfresh2
      cases pid with
      | absent => exact ⟨1, by rw [chainTerm, hstep, hpabs rfl]⟩
      | null => exact absurd rfl hnonull
      | str q =>
        obtain ⟨hcq, hqfind⟩ := hpstr q rfl
        obtain ⟨r, hr, hrid, _⟩ := findCategory_some_mem hqfind
        obtain ⟨n, hn⟩ := hacy r hr
        rw [hrid] at hn
        have hq : q ≠ c.id := by
          rw [← hrid]
          exact hfresh2 r hr
        have hn' : chainTerm (s.categories ++ [c]) q n = true :=
          chainTerm_transfer hag hq (chainHits_fresh href hfresh2) hn
        exact ⟨n + 1, by rw [chainTerm, hstep, hcq]; exact hn'⟩

theorem updateCategory_inv {s s' : Store} {uid i : String} {nm col pid : JField}
    {c' : Category}
    (hinv : StoreInv s) (h : updateCategory s uid i nm col pid = .ok s' c') :
    StoreInv s' := by
  obtain ⟨hnd, href, hacy⟩ := hinv
  obtain ⟨_, _, hvU, _, hcats, _, ⟨cOld, hlook, _⟩, hnonull, hpstr⟩ :=
    updateCategory_ok_facts h
  refine ⟨?_, ?_, ?_⟩
  · show ((s'.categories).map (fun c => c.id)).Nodup
    rw [hcats, updateCats_ids]
    exact hnd
  · show RefInt s'.categories
    rw [hcats]
    intro c hc p hp
    rw [updateCats] at hc
    obtain ⟨d, hd, hdeq⟩ := List.mem_map.mp hc
    have himg2 : ∀ e : Category, e ∈ s.categories → e.id = p →
        ∃ d' ∈ updateCats s.categories i nm col pid, d'.id = p := by
      intro e he heid
      refine ⟨(fun c => if c.id == i then mergeCategory c nm col pid else c) e, ?_, ?_⟩
      · rw [updateCats]
        exact List.mem_map.mpr ⟨e, he, rfl⟩
      · rw [updateCats_id_eq s.categories i nm col pid e]
        exact heid
    by_cases hdi : d.id = i
    · rw [← hdeq, if_pos (by simp [hdi])] at hp
      cases pid with
      | absent =>
        rw [mergeCategory_parentId_absent] at hp
        obtain ⟨e, he, heid⟩ := href d hd p hp
        exact himg2 e he heid
      | null => exact absurd rfl hnonull
      | str q =>
        obtain ⟨_, hqfind, _⟩ := hpstr q rfl
        have hq : q ≠ "" := isUUID_ne_empty (by simpa [validOptUUID] using hvU)
        rw [mergeCategory_parentId_str d nm col hq] at hp
        simp only [Option.some.injEq] at hp
        subst hp
        obtain ⟨r, hr, hrid, _⟩ := findCategory_some_mem hqfind
        exact himg2 r hr hrid
    · rw [← hdeq, if_neg (by simp [hdi])] at hp
      obtain ⟨e, he, heid⟩ := href d hd p hp
      exact himg2 e he heid
  · show Acyclic s'.categories
    rw [hcats]
    cases pid with
    | null => exact absurd rfl hnonull
    | absent =>
      intro c hc
      rw [updateCats] at hc
      obtain ⟨d, hd, hdeq⟩ := List.mem_map.mp hc
      obtain ⟨n, hn⟩ := hacy d hd
      have hcid : c.id = d.id := by
        rw [← hdeq]
        exact updateCats_id_eq s.categories i nm col .absent d
      rw [hcid]
      exact ⟨n, (chainTerm_congr parentStep_updateCats_absent) hn⟩
    | str q =>
      obtain ⟨hqi, hqfind, hcc⟩ := hpstr q rfl
      obtain ⟨hterm, hmiss⟩ := checkCircular_some_false hcc
      have hq : q ≠ "" := isUUID_ne_empty (by simpa [validOptUUID] using hvU)
      have hag : ∀ y, y ≠ i →
          parentStep (updateCats s.categories i nm col (.str q)) y =
            parentStep s.categories y := by
        intro y hy
        exact parentStep_updateCats_ne hy
      have hstepi : parentStep (updateCats s.categories i nm col (.str q)) i = some q :=
        parentStep_updateCats_self hq (by rw [hlook]; rfl)
      have htermq : chainTerm (updateCats s.categories i nm col (.str q)) q
          (s.categories.length + 1) = true :=
        chainTerm_transfer hag hqi hmiss hterm
      have htermi : chainTerm (updateCats s.categories i nm col (.str q)) i
          (s.categories.length + 2) = true := by
        rw [chainTerm, hstepi]
        exact htermq
      intro c hc
      rw [updateCats] at hc
      obtain ⟨d, hd, hdeq⟩ := List.mem_map.mp hc
      obtain ⟨n, hn⟩ := hacy d hd
      have hcid : c.id = d.id := by
        rw [← hdeq]
        exact updateCats_id_eq s.categories i nm col (.str q) d
      rw [hcid]
      exact ⟨s.categories.length + 2 + n, chainTerm_extend hag htermi hn⟩

theorem deleteCategory_inv {s s' : Store} {uid i : String}
    (hinv : StoreInv s) (h : deleteCategory s uid i = .ok s') : StoreInv s' := by
  obtain ⟨hnd, href, hacy⟩ := hinv
  obtain ⟨_, _, hs⟩ := deleteCategory_ok_facts h
  subst hs
  refine ⟨?_, ?_, ?_⟩
  · rw [NodupCatIds]
    show ((deleteCats s.categories i).map (fun c => c.id)).Nodup
    rw [deleteCats, List.map_map]
    have : ((s.categories.filter (fun c => !(c.id == i))).map
        ((fun c : Category => c.id) ∘
          (fun c => if c.parentId == some i then { c with parentId := none } else c))) =
        (s.categories.filter (fun c => !(c.id == i))).map (fun c => c.id) := by
      refine List.map_congr_left ?_
      intro c _
      by_cases hdet : (c.parentId == some i) = true <;> simp [Function.comp, hdet]
    rw [this]
    exact ((List.filter_sublist _).map _).nodup hnd
  · show RefInt (deleteCats s.categories i)
    intro c hc p hp
    rw [deleteCats] at hc
    obtain ⟨d, hd, hdeq⟩ := List.mem_map.mp hc
    obtain ⟨hdmem, hdfilt⟩ := List.mem_filter.mp hd
    by_cases hdet : (d.parentId == some i) = true
    · rw [← hdeq] at hp
      simp [hdet] at hp
    · simp only [Bool.not_eq_true] at hdet
      have hceq : c = d := by rw [← hdeq]; simp [hdet]
      subst hceq
      have hpi : p ≠ i := by
        intro he
        subst he
        rw [hp] at hdet
        simp at hdet
      obtain ⟨e, he, heid⟩ := href c hdmem p hp
      refine ⟨if e.parentId == some i then { e with parentId := none } else e, ?_, ?_⟩
      · rw [deleteCats]
        refine List.mem_map.mpr ⟨e, ?_, rfl⟩
        refine List.mem_filter.mpr ⟨he, ?_⟩
        simp [heid, hpi]
      · by_cases hedet : (e.parentId == some i) = true <;> simp [hedet, heid]
  · show Acyclic (deleteCats s.categories i)
    intro c hc
    rw [deleteCats] at hc
    obtain ⟨d, hd, hdeq⟩ := List.mem_map.mp hc
    obtain ⟨hdmem, _⟩ := List.mem_filter.mp hd
    obtain ⟨n, hn⟩ := hacy d hdmem
    have hcid : c.id = d.id := by
      rw [← hdeq]
      by_cases hdet : (d.parentId == some i) = true <;> simp [hdet]
    rw [hcid]
    exact ⟨n, chainTerm_delete hnd hn⟩

theorem applyCatOp_inv {s : Store} {op : CatOp} (hinv : StoreInv s) :
    StoreInv (applyCatOp s op) := by
  cases op with
  | create uid nm col pid newId now =>
    rw [applyCatOp]
    cases h : createCategory s uid nm col pid newId now with
    | ok s' c' => exact createCategory_inv hinv h
    | validationError => exact hinv
    | notFound => exact hinv
    | idTaken => exact hinv
  | update uid i nm col pid =>
    rw [applyCatOp]
    cases h : updateCategory s uid i nm col pid with
    | ok s' c' => exact updateCategory_inv hinv h
    | validationError => exact hinv
    | notFound => exact hinv
    | selfParent => exact hinv
    | cycle => exact hinv
    | diverge => exact hinv
  | delete uid i =>
    rw [applyCatOp]
    cases h : deleteCategory s uid i with
    | ok s' => exact deleteCategory_inv hinv h
    | notFound => exact hinv
    | hasChildren => exact hinv

theorem runCatOps_inv {s : Store} (hinv : StoreInv s) :
    ∀ ops : List CatOp, StoreInv (runCatOps s ops) := by
  intro ops
  induction ops generalizing s with
  | nil => exact hinv
  | cons op ops ih =>
    rw [runCatOps]
    exact ih (applyCatOp_inv hinv)

theorem emptyStore_inv : StoreInv emptyStore := by
  refine ⟨by simp [NodupCatIds, emptyStore], ?_, ?_⟩
  · intro c hc
    simp [emptyStore] at hc
  · intro c hc
    simp [emptyStore] at hc

theorem acyclic_of_all (n : Nat) {cats : List Category}
    (h : (cats.all (fun c => chainTerm cats c.id n)) = true) : Acyclic cats := by
  intro c hc
  exact ⟨n, List.all_eq_true.mp h c hc⟩

/-- C1 amended: after every sequence of category operations (create, update,
    delete) run through the category routes from the empty store, every parent
    chain still terminates in a null parent (the table stays acyclic).  The
    original 1-hop bound does not hold (see the counterexample); termination of
    the chains is what the routes actually preserve. -/
theorem categoryChainsTerminate (ops : List CatOp) :
    ∀ c ∈ (runCatOps emptyStore ops).categories,
      ∃ n, chainTerm (runCatOps emptyStore ops).categories c.id n = true :=
  (runCatOps_inv emptyStore_inv ops).2.2

/-- Witness for the amended C1 theorem at the three-create sequence: the
    category C created under B has a terminating parent chain. -/
theorem categoryChainsTerminate_witness :
    ((⟨idC, "C", "#3b82f6", some idB, uidMain, 3⟩ : Category) ∈
        (runCatOps emptyStore demoOps).categories) ∧
    (∃ n, chainTerm (runCatOps emptyStore demoOps).categories idC n = true) :=
  ⟨by decide, categoryChainsTerminate demoOps ⟨idC, "C", "#3b82f6", some idB, uidMain, 3⟩
    (by decide)⟩

theorem demoCyc_diverges : ∀ fuel,
    checkCircular demoCyc idA idD fuel = none ∧
    checkCircular demoCyc idB idD fuel = none := by
  intro fuel
  induction fuel with
  | zero => exact ⟨rfl, rfl⟩
  | succ n ih =>
    have h1 : parentStep demoCyc idA = some idB := by decide
    have h2 : parentStep demoCyc idB = some idA := by decide
    constructor
    · rw [checkCircular, h1]
      show (if (idB == idD) = true then some true else checkCircular demoCyc idB idD n) = none
      rw [if_neg (by decide)]
      exact ih.2
    · rw [checkCircular, h2]
      show (if (idA == idD) = true then some true else checkCircular demoCyc idA idD n) = none
      rw [if_neg (by decide)]
      exact ih.1

/-- C10: the recursive checkCircular helper terminates on every table whose
    parent chains are acyclic (some fuel makes the walk finish), and its
    recursion is well-founded only under that precondition: on the concrete
    table demoCyc that already contains the parent cycle A-B, the call made by
    the update route never finishes, returning none at every fuel. -/
theorem checkCircularTermination :
    (∀ cats : List Category, Acyclic cats → ∀ x t : String,
      ∃ fuel, (checkCircular cats x t fuel).isSome = true) ∧
    (∀ fuel, checkCircular demoCyc idA idD fuel = none) := by
  constructor
  · intro cats hacy x t
    cases hx : lookupCat cats x with
    | none =>
      refine ⟨1, ?_⟩
      rw [checkCircular]
      rw [show parentStep cats x = none from by rw [parentStep, hx]; rfl]
      rfl
    | some r =>
      have hr : r ∈ cats := List.mem_of_find?_eq_some hx
      have hrid : r.id = x := by simpa using List.find?_some hx
      obtain ⟨n, hn⟩ := hacy r hr
      rw [hrid] at hn
      exact ⟨n, by rw [checkCircular_eq_of_chainTerm hn]; rfl⟩
  · exact fun fuel => (demoCyc_diverges fuel).1

/-- Witness for C10 on the acyclic table of demoNest: the termination half
    applied at a concrete starting point produces a finishing fuel. -/
theorem checkCircularTermination_witness :
    Acyclic demoNest.categories ∧
    (∃ fuel, (checkCircular demoNest.categories idC idD fuel).isSome = true) :=
  ⟨acyclic_of_all 4 (by decide),
   checkCircularTermination.1 demoNest.categories (acyclic_of_all 4 (by decide)) idC idD⟩

/-- C8: under a well-formed update request by the owner of category i that
    proposes parent p (p distinct from i; self-parenting is rejected earlier
    with its own error), with both rows present and the parent chain of p
    terminating, the route fails with CycleDetected (HTTP 400 "Circular
    reference detected") exactly when walking the parent chain of the proposed
    parent encounters i.  In particular, when i has child p, the walk from p
    immediately hits i and the update is rejected. -/
theorem cycleDetectedIffChainHits (s : Store) (uid i p : String) (nm col : JField)
    (hnm : validOptName nm = true) (hcol : validOptHexColor col = true)
    (hpU : isUUID p = true) (hpi : p ≠ i)
    (hfind : (findCategory s uid i).isSome = true)
    (hpfind : (findCategory s uid p).isSome = true)
    (hterm : chainTerm s.categories p (s.categories.length + 1) = true) :
    (updateCategory s uid i nm col (.str p) = .cycle ↔
      chainHits s.categories i p (s.categories.length + 1) = true) := by
  unfold updateCategory
  rw [if_neg (by simp [hnm, hcol, validOptUUID, hpU])]
  obtain ⟨c0, hc0⟩ := Option.isSome_iff_exists.mp hfind
  rw [hc0]
  simp only
  rw [if_neg (by simp [hpi])]
  simp only [hpfind, if_true, checkCircular_eq_of_chainTerm hterm]
  by_cases hhit : chainHits s.categories i p (s.categories.length + 1) = true
  · simp [hhit]
  · simp only [Bool.not_eq_true] at hhit
    simp only [hhit]
    obtain ⟨r, hr, _⟩ := findCategory_isSome_lookup hfind
    rw [hr]
    simp [hhit]

/-- Witness for C8 at the spec scenario: in demoNest, A has child C; walking
    the chain of the proposed parent C immediately encounters A, and the
    update setting A's parent to C is rejected with CycleDetected. -/
theorem cycleDetectedIffChainHits_witness :
    chainHits demoNest.categories idA idC (demoNest.categories.length + 1) = true ∧
    updateCategory demoNest uidMain idA .absent .absent (.str idC) = .cycle :=
  ⟨by decide,
   (cycleDetectedIffChainHits demoNest uidMain idA idC .absent .absent (by decide)
     (by decide) (by decide) (by decide) (by decide) (by decide) (by decide)).mpr
     (by decide)⟩

/-- C2 amended: an update that sets a non-null parent_id on a category that
    currently has at least one child is not rejected with InvalidOperation;
    the route has no children check.  It succeeds for every valid proposed
    parent whose own parent chain does not reach the category (rejection
    happens only through the CycleDetected walk), updating the row to the new
    parent even though it still has children. -/
theorem childedCategoryReparentSucceeds (s : Store) (uid i p : String) (nm col : JField)
    (hnm : validOptName nm = true) (hcol : validOptHexColor col = true)
    (hpU : isUUID p = true) (hpi : p ≠ i)
    (hfind : (findCategory s uid i).isSome = true)
    (hpfind : (findCategory s uid p).isSome = true)
    (hchild : (s.categories.any (fun c => c.parentId == some i)) = true)
    (hterm : chainTerm s.categories p (s.categories.length + 1) = true)
    (hmiss : chainHits s.categories i p (s.categories.length + 1) = false) :
    ∃ s' c', updateCategory s uid i nm col (.str p) = .ok s' c' ∧
      c'.parentId = some p := by
  unfold updateCategory
  rw [if_neg (by simp [hnm, hcol, validOptUUID, hpU])]
  obtain ⟨c0, hc0⟩ := Option.isSome_iff_exists.mp hfind
  rw [hc0]
  simp only
  rw [if_neg (by simp [hpi])]
  simp only [hpfind, if_true, checkCircular_eq_of_chainTerm hterm, hmiss]
  obtain ⟨r, hr, _⟩ := findCategory_isSome_lookup hfind
  rw [hr]
  exact ⟨_, _, rfl, mergeCategory_parentId_str r nm col (isUUID_ne_empty hpU)⟩

/-- Witness for the amended C2 theorem: A (which has child C) is successfully
    reparented under the unrelated top-level B. -/
theorem childedCategoryReparentSucceeds_witness :
    (demoNest.categories.any (fun c => c.parentId == some idA)) = true ∧
    (∃ s' c', updateCategory demoNest uidMain idA .absent .absent (.str idB) =
        .ok s' c' ∧ c'.parentId = some idB) :=
  ⟨by decide,
   childedCategoryReparentSucceeds demoNest uidMain idA idB .absent .absent
     (by decide) (by decide) (by decide) (by decide) (by decide) (by decide)
     (by decide) (by decide) (by decide)⟩

/-! ### Sorting lemmas for the listing routes -/

theorem perm_insertKeyDesc (key : α → Nat) (x : α) :
    ∀ l : List α, (insertKeyDesc key x l).Perm (x :: l) := by
  intro l
  induction l with
  | nil => exact List.Perm.refl _
  | cons y ys ih =>
    rw [insertKeyDesc]
    by_cases hxy : key x ≤ key y
    · rw [if_pos hxy]
      exact (ih.cons y).trans (List.Perm.swap x y ys)
    · rw [if_neg hxy]

theorem perm_sortByCreatedDesc (key : α → Nat) :
    ∀ l : List α, (sortByCreatedDesc key l).Perm l := by
  intro l
  induction l with
  | nil => exact List.Perm.refl _
  | cons x xs ih =>
    rw [sortByCreatedDesc]
    exact (perm_insertKeyDesc key x (sortByCreatedDesc key xs)).trans (ih.cons x)

theorem mem_sortByCreatedDesc {key : α → Nat} {a : α} {l : List α} :
    a ∈ sortByCreatedDesc key l ↔ a ∈ l :=
  (perm_sortByCreatedDesc key l).mem_iff

theorem sorted_insertKeyDesc (key : α → Nat) (x : α) :
    ∀ {l : List α}, l.Sorted (fun a b => key b ≤ key a) →
      (insertKeyDesc key x l).Sorted (fun a b => key b ≤ key a) := by
  intro l
  induction l with
  | nil => intro _; simp [insertKeyDesc]
  | cons y ys ih =>
    intro hs
    obtain ⟨hy, hys⟩ := List.sorted_cons.mp hs
    rw [insertKeyDesc]
    by_cases hxy : key x ≤ key y
    · rw [if_pos hxy]
      refine List.sorted_cons.mpr ⟨?_, ih hys⟩
      intro b hb
      have hb' := (perm_insertKeyDesc key x ys).mem_iff.mp hb
      rcases List.mem_cons.mp hb' with hb' | hb'
      · rw [hb']; exact hxy
      · exact hy b hb' 
    · rw [if_neg hxy]
      refine List.sorted_cons.mpr ⟨?_, hs⟩
      intro b hb
      rcases List.mem_cons.mp hb with hb | hb
      · rw [hb]; omega
      · exact le_trans (hy b hb) (by omega)

theorem sorted_sortByCreatedDesc (key : α → Nat) :
    ∀ l : List α, (sortByCreatedDesc key l).Sorted (fun a b => key b ≤ key a) := by
  intro l
  induction l with
  | nil => simp [sortByCreatedDesc]
  | cons x xs ih =>
    rw [sortByCreatedDesc]
    exact sorted_insertKeyDesc key x ih

/-- C5 amended: both listing routes sort by creation time, descending: GET
    /links as the spec says, and GET /categories also by createdAt descending
    (not by name ascending as claimed — see the counterexample).  Each listing
    is a permutation of the caller's filtered rows. -/
theorem listingsSortedByCreatedDesc (s : Store) (uid : String)
    (cq pq sq : Option String) :
    (listLinks s uid cq pq sq).Sorted (fun a b => b.createdAt ≤ a.createdAt) ∧
    (listCategories s uid).Sorted (fun a b => b.createdAt ≤ a.createdAt) ∧
    (listLinks s uid cq pq sq).Perm (s.links.filter (linkWhere uid cq pq sq)) ∧
    (listCategories s uid).Perm (s.categories.filter (fun c => c.userId == uid)) := by
  refine ⟨?_, ?_, ?_, ?_⟩
  · exact sorted_sortByCreatedDesc (fun l : Link => l.createdAt) _
  · exact sorted_sortByCreatedDesc (fun c : Category => c.createdAt) _
  · exact perm_sortByCreatedDesc (fun l : Link => l.createdAt) _
  · exact perm_sortByCreatedDesc (fun c : Category => c.createdAt) _

theorem findCategory_none_of_foreign {s : Store} {uid i : String}
    (h : ∀ c ∈ s.categories, c.id = i → c.userId ≠ uid) :
    findCategory s uid i = none := by
  rw [findCategory, List.find?_eq_none]
  intro c hc
  simp only [Bool.and_eq_true, beq_iff_eq, not_and]
  intro hid
  exact h c hc hid

theorem findLink_none_of_foreign {s : Store} {uid i : String}
    (h : ∀ l ∈ s.links, l.id = i → l.userId ≠ uid) :
    findLink s uid i = none := by
  rw [findLink, List.find?_eq_none]
  intro l hl
  simp only [Bool.and_eq_true, beq_iff_eq, not_and]
  intro hid
  exact h l hl hid

/-- C3: every get, update and delete on a Category or Link id that is not
    owned by the caller answers NotFound (after the request body passes
    validation, for the updates), and the listing routes only ever return rows
    whose owner is the caller.  Since every non-ok result of the embedded
    routes carries no store, no such request mutates the state. -/
theorem crossUserAccessDenied (s : Store) (uid i : String)
    (hcat : ∀ c ∈ s.categories, c.id = i → c.userId ≠ uid)
    (hlink : ∀ l ∈ s.links, l.id = i → l.userId ≠ uid) :
    getCategory s uid i = .notFound ∧
    deleteCategory s uid i = .notFound ∧
    (∀ nm col pid, validOptName nm = true → validOptHexColor col = true →
      validOptUUID pid = true → updateCategory s uid i nm col pid = .notFound) ∧
    getLink s uid i = .notFound ∧
    deleteLink s uid i = .notFound ∧
    (∀ url ttl dsc plt cid, validOptURL url = true → validOptName ttl = true →
      validOptName plt = true → validOptUUID cid = true →
      updateLink s uid i url ttl dsc plt cid = .notFound) ∧
    (∀ cq pq sq, ∀ l ∈ listLinks s uid cq pq sq, l.userId = uid) ∧
    (∀ c ∈ listCategories s uid, c.userId = uid) := by
  have hfc := findCategory_none_of_foreign hcat
  have hfl := findLink_none_of_foreign hlink
  refine ⟨?_, ?_, ?_, ?_, ?_, ?_, ?_, ?_⟩
  · rw [getCategory, hfc]
  · rw [deleteCategory, hfc]
  · intro nm col pid hnm hcol hpid
    unfold updateCategory
    rw [if_neg (by simp [hnm, hcol, hpid]), hfc]
  · rw [getLink, hfl]
  · rw [deleteLink, hfl]
  · intro url ttl dsc plt cid hurl httl hplt hcid
    unfold updateLink
    rw [if_neg (by simp [hurl, httl, hplt, hcid]), hfl]
  · intro cq pq sq l hl
    have hl' := mem_sortByCreatedDesc.mp hl
    have := (List.mem_filter.mp hl').2
    rw [linkWhere] at this
    simp only [Bool.and_eq_true, beq_iff_eq] at this
    exact this.1.1.1
  · intro c hc
    have hc' := mem_sortByCreatedDesc.mp hc
    have := (List.mem_filter.mp hc').2
    simpa using this

/-- Witness for C3 on the store whose only category and link belong to the
    other user: the caller's get, delete and (validated) update all answer
    NotFound. -/
theorem crossUserAccessDenied_witness :
    getCategory demoForeign uidMain idA = .notFound ∧
    deleteCategory demoForeign uidMain idA = .notFound ∧
    updateCategory demoForeign uidMain idA (.str "Renamed") .absent .absent = .notFound ∧
    getLink demoForeign uidMain idB = .notFound ∧
    deleteLink demoForeign uidMain idB = .notFound := by
  have hA := crossUserAccessDenied demoForeign uidMain idA (by decide) (by decide)
  have hB := crossUserAccessDenied demoForeign uidMain idB (by decide) (by decide)
  exact ⟨hA.1, hA.2.1, hA.2.2.1 (.str "Renamed") .absent .absent (by decide)
    (by decide) (by decide), hB.2.2.2.1, hB.2.2.2.2.1⟩

theorem countP_add_of_disjoint {p q : α → Bool} :
    ∀ {l : List α}, (∀ a ∈ l, ¬(p a = true ∧ q a = true)) →
      l.countP (fun a => p a || q a) = l.countP p + l.countP q := by
  intro l
  induction l with
  | nil => intro _; simp
  | cons a t ih =>
    intro hdis
    have ht := ih (fun b hb => hdis b (List.mem_cons_of_mem a hb))
    rw [List.countP_cons, List.countP_cons, List.countP_cons, ht]
    by_cases hp : p a = true
    · have hq : ¬(q a = true) := fun hq => hdis a (List.mem_cons_self a t) ⟨hp, hq⟩
      simp [hp, hq]
      omega
    · simp only [Bool.not_eq_true] at hp
      by_cases hq : q a = true
      · simp [hp, hq]
        omega
      · simp only [Bool.not_eq_true] at hq
        simp [hp, hq]

/-- C4: DELETE /categories/:id on a category the caller owns.  If any row has
    the category as its parent the delete fails with HasChildren (no store is
    produced).  On a childless category the delete succeeds: the category row
    is removed (exactly one row, by primary-key uniqueness), every link
    survives (same number of links), each link that referenced the category is
    detached to a null category_id, every other link is untouched, no link
    references the category afterwards, and the number of null-category links
    grows by exactly the number N of links that referenced it. -/
theorem deleteCategoryBehaviour (s : Store) (uid i : String)
    (hnd : NodupCatIds s.categories)
    (hfind : (findCategory s uid i).isSome = true) :
    ((s.categories.any (fun c => c.parentId == some i)) = true →
      deleteCategory s uid i = .hasChildren) ∧
    ((s.categories.any (fun c => c.parentId == some i)) = false →
      ∃ s', deleteCategory s uid i = .ok s' ∧
        s'.links.length = s.links.length ∧
        (∀ l ∈ s.links, l.categoryId ≠ some i → l ∈ s'.links) ∧
        (∀ l ∈ s.links, l.categoryId = some i →
          { l with categoryId := none } ∈ s'.links) ∧
        s'.links.filter (fun l => l.categoryId == some i) = [] ∧
        s'.links.countP (fun l => l.categoryId == none) =
          s.links.countP (fun l => l.categoryId == none) +
          s.links.countP (fun l => l.categoryId == some i) ∧
        (∀ c ∈ s'.categories, c.id ≠ i) ∧
        s'.categories.length + 1 = s.categories.length) := by
  obtain ⟨c0, hc0⟩ := Option.isSome_iff_exists.mp hfind
  constructor
  · intro hch
    unfold deleteCategory
    rw [hc0]
    rw [if_pos]
    rw [← List.countP_eq_length_filter]
    exact List.countP_pos.mpr (List.any_eq_true.mp hch)
  · intro hch
    have hnochild : ∀ c ∈ s.categories, ¬(c.parentId == some i) = true :=
      List.any_eq_false.mp hch
    refine ⟨⟨deleteCats s.categories i, detachLinks s.links i⟩, ?_, ?_, ?_, ?_, ?_, ?_, ?_, ?_⟩
    · unfold deleteCategory
      rw [hc0]
      rw [if_neg]
      rw [← List.countP_eq_length_filter]
      intro hpos
      obtain ⟨c, hcmem, hcp⟩ := List.countP_pos.mp hpos
      exact hnochild c hcmem hcp
    · exact List.length_map s.links _
    · intro l hl hne
      refine List.mem_map.mpr ⟨l, hl, ?_⟩
      rw [if_neg (by simpa using hne)]
    · intro l hl heq
      refine List.mem_map.mpr ⟨l, hl, ?_⟩
      rw [if_pos (by simpa using heq)]
    · rw [List.filter_eq_nil_iff]
      intro a ha
      obtain ⟨l, _, hleq⟩ := List.mem_map.mp ha
      by_cases hdet : (l.categoryId == some i) = true
      · rw [← hleq, if_pos hdet]
        simp
      · rw [← hleq, if_neg hdet]
        exact hdet
    · show (s.links.map _).countP _ = _
      rw [List.countP_map]
      have hpt : ((fun l : Link => l.categoryId == none) ∘
          (fun l => if l.categoryId == some i then { l with categoryId := none } else l)) =
          (fun l : Link => (l.categoryId == some i) || (l.categoryId == none)) := by
        funext l
        by_cases hdet : (l.categoryId == some i) = true
        · simp [Function.comp, hdet]
        · simp only [Bool.not_eq_true] at hdet
          simp [Function.comp, hdet]
      rw [hpt]
      rw [countP_add_of_disjoint]
      · omega
      · intro l _
        intro ⟨h1, h2⟩
        simp only [beq_iff_eq] at h1 h2
        rw [h1] at h2
        exact Option.noConfusion h2
    · intro c hc
      obtain ⟨d, hd, hdeq⟩ := List.mem_map.mp hc
      obtain ⟨_, hdfilt⟩ := List.mem_filter.mp hd
      have hdid : c.id = d.id := by
        rw [← hdeq]
        by_cases hdet : (d.parentId == some i) = true <;> simp [hdet]
      rw [hdid]
      intro he
      rw [he] at hdfilt
      simp at hdfilt
    · show (List.map _ _).length + 1 = _
      rw [List.length_map]
      have hmem : c0 ∈ s.categories := List.mem_of_find?_eq_some hc0
      have hc0id : c0.id = i := by
        have := List.find?_some hc0
        simp only [Bool.and_eq_true, beq_iff_eq] at this
        exact this.1
      have hcount1 : s.categories.countP (fun c => c.id == i) = 1 := by
        have h1 : (s.categories.map (fun c => c.id)).count i = 1 :=
          List.count_eq_one_of_mem hnd (List.mem_map.mpr ⟨c0, hmem, hc0id⟩)
        rw [List.count_eq_countP, List.countP_map] at h1
        simpa using h1
      have hlen := List.length_eq_countP_add_countP (fun c : Category => c.id == i)
        s.categories
      have hpt : (fun c : Category => decide ¬((fun c : Category => c.id == i) c = true)) =
          (fun c : Category => !(c.id == i)) := by
        funext c
        by_cases hdet : (c.id == i) = true <;> simp [hdet]
      rw [hpt] at hlen
      rw [← List.countP_eq_length_filter]
      omega

/-- Witness for C4: on demoNest (A has child C) the delete of A fails with
    HasChildren; on demoDel (childless A referenced by one of two links) it
    succeeds and the referencing link survives detached. -/
theorem deleteCategoryBehaviour_witness :
    deleteCategory demoNest uidMain idA = .hasChildren ∧
    (∃ s', deleteCategory demoDel uidMain idA = .ok s' ∧
      s'.links.length = demoDel.links.length ∧
      s'.links.filter (fun l => l.categoryId == some idA) = []) := by
  constructor
  · exact (deleteCategoryBehaviour demoNest uidMain idA
      (by unfold NodupCatIds; decide) (by decide)).1 (by decide)
  · obtain ⟨s', h1, h2, _, _, h5, _, _, _⟩ :=
      (deleteCategoryBehaviour demoDel uidMain idA
        (by unfold NodupCatIds; decide) (by decide)).2 (by decide)
    exact ⟨s', h1, h2, h5⟩

theorem occursIn_infix_iff {n : List Char} :
    ∀ {h : List Char}, occursIn n h = true ↔ n <:+: h := by
  intro h
  induction h with
  | nil =>
    rw [occursIn, List.isPrefixOf_iff_prefix]
    constructor
    · intro hp
      exact List.IsPrefix.isInfix hp
    · intro hi
      rw [ List.infix_nil] at hi
      rw [hi]
  | cons c t ih =>
    rw [occursIn, Bool.or_eq_true, List.isPrefixOf_iff_prefix, ih]
    exact ( List.infix_cons_iff).symm

theorem ciContains_iff {hay q : String} :
    ciContains hay q = true ↔ (lowerStr q).data <:+: (lowerStr hay).data := by
  rw [ciContains, occursIn_infix_iff]

/-- C6: a link is returned by GET /links with a nonempty search string q
    exactly when it belongs to the caller, q is a case-insensitive substring
    of the title, of the (non-null) description, or of the url (logical OR),
    and the optional categoryId/platform query filters, when given and
    nonempty, match exactly (logical AND with the search clause). -/
theorem searchFilterCharacterization (s : Store) (uid : String)
    (cq pq : Option String) (q : String) (hq : q ≠ "") (l : Link) :
    l ∈ listLinks s uid cq pq (some q) ↔
      (l ∈ s.links ∧ l.userId = uid ∧
       ((lowerStr q).data <:+: (lowerStr l.title).data ∨
        (∃ d, l.description = some d ∧ (lowerStr q).data <:+: (lowerStr d).data) ∨
        (lowerStr q).data <:+: (lowerStr l.url).data) ∧
       (∀ c, cq = some c → c ≠ "" → l.categoryId = some c) ∧
       (∀ pf, pq = some pf → pf ≠ "" → l.platform = pf)) := by
  rw [listLinks, mem_sortByCreatedDesc, List.mem_filter]
  have hcat : ((match truthyQ cq with
      | some c => l.categoryId == some c
      | none => true) = true) ↔
      (∀ c, cq = some c → c ≠ "" → l.categoryId = some c) := by
    cases cq with
    | none => simp [truthyQ]
    | some c =>
      by_cases hc : c = ""
      · subst hc
        simp [truthyQ]
      · rw [truthyQ, if_neg (by simpa using hc)]
        constructor
        · intro hl c' h1 _
          injection h1 with he
          subst he
          simpa using hl
        · intro hall
          simpa using hall c rfl hc
  have hplat : ((match truthyQ pq with
      | some pf => l.platform == pf
      | none => true) = true) ↔
      (∀ pf, pq = some pf → pf ≠ "" → l.platform = pf) := by
    cases pq with
    | none => simp [truthyQ]
    | some pf =>
      by_cases hp : pf = ""
      · subst hp
        simp [truthyQ]
      · rw [truthyQ, if_neg (by simpa using hp)]
        constructor
        · intro hl pf' h1 _
          injection h1 with he
          subst he
          simpa using hl
        · intro hall
          simpa using hall pf rfl hp
  have hdesc : ((match l.description with
      | some d => ciContains d q
      | none => false) = true) ↔
      (∃ d, l.description = some d ∧ (lowerStr q).data <:+: (lowerStr d).data) := by
    cases hd : l.description with
    | none => simp
    | some d =>
      rw [ciContains_iff]
      constructor
      · intro hin
        exact ⟨d, rfl, hin⟩
      · intro ⟨d', hd', hin⟩
        injection hd' with he
        subst he
        exact hin
  have hsearch : ((match truthyQ (some q) with
      | some q' =>
        ciContains l.title q' ||
        (match l.description with
         | some d => ciContains d q'
         | none => false) ||
        ciContains l.url q'
      | none => true) = true) ↔
      ((lowerStr q).data <:+: (lowerStr l.title).data ∨
       (∃ d, l.description = some d ∧ (lowerStr q).data <:+: (lowerStr d).data) ∨
       (lowerStr q).data <:+: (lowerStr l.url).data) := by
    rw [truthyQ, if_neg (by simpa using hq)]
    rw [Bool.or_eq_true, Bool.or_eq_true, ciContains_iff, ciContains_iff, hdesc]
    exact or_assoc
  constructor
  · intro ⟨hmem, hw⟩
    rw [linkWhere] at hw
    simp only [Bool.and_eq_true] at hw
    obtain ⟨⟨⟨huid, hc⟩, hp⟩, hs'⟩ := hw
    exact ⟨hmem, by simpa using huid, hsearch.mp hs', hcat.mp hc, hplat.mp hp⟩
  · intro ⟨hmem, huid, hs', hc, hp⟩
    refine ⟨hmem, ?_⟩
    rw [linkWhere]
    simp only [Bool.and_eq_true]
    exact ⟨⟨⟨by simpa using huid, hcat.mpr hc⟩, hplat.mpr hp⟩, hsearch.mpr hs'⟩

/-- Witness for C6 at the spec example: the link titled "Great Article on
    Rust" is returned by search "rust" and not returned by search "python". -/
theorem searchFilterCharacterization_witness :
    ("rust" : String) ≠ "" ∧
    rustLink ∈ listLinks demoSearch uidMain none none (some "rust") ∧
    rustLink ∉ listLinks demoSearch uidMain none none (some "python") := by
  refine ⟨by decide, ?_, ?_⟩
  · exact (searchFilterCharacterization demoSearch uidMain none none "rust"
      (by decide) rustLink).mpr
      ⟨by decide, by decide, Or.inl (occursIn_infix_iff.mp (by decide)),
       by simp, by simp⟩
  · intro hmem
    obtain ⟨_, _, hor, _, _⟩ := (searchFilterCharacterization demoSearch uidMain none
      none "python" (by decide) rustLink).mp hmem
    rcases hor with h | h | h
    · exact absurd (occursIn_infix_iff.mpr h) (by decide)
    · obtain ⟨d, hd, _⟩ := h
      simp [rustLink] at hd
    · exact absurd (occursIn_infix_iff.mpr h) (by decide)

/-- C9: detectVideoUrl is total by construction (it is a plain function of
    its two arguments; the try/catch of the source is the parseUrl match), and
    on every input whose url does not parse as a URL it lands in the catch
    branch: the result is isVideo = false with platform unknown and no embed
    url or video id, for every platform hint. -/
theorem detectVideoUrlMalformed (url : String) (hint : Option String)
    (h : parseUrl url = none) :
    detectVideoUrl url hint =
      { isVideo := false, embedUrl := none, platform := .unknown, videoId := none } := by
  rw [detectVideoUrl, h]

/-- Witness for C9 at a concrete malformed url with a platform hint. -/
theorem detectVideoUrlMalformed_witness :
    parseUrl "notaurl" = none ∧
    detectVideoUrl "notaurl" (some "YouTube") =
      { isVideo := false, embedUrl := none, platform := .unknown, videoId := none } :=
  ⟨by decide, detectVideoUrlMalformed "notaurl" (some "YouTube") (by decide)⟩

end LinkSaver
